import Mathlib

/-!
Verification of the `SourceContext` analysis unit of a grammar-authoring tool
(`src/SourceContext.ts`).  The definitions below are a shallow embedding of the
TypeScript source: JavaScript arrays become `List`, `Map` becomes an
association list with latest-entry-wins lookup, `undefined`-able values become
`Option`, thrown exceptions become `Except`/`Option`, and the unbounded
`while` loops of the source become fuel-indexed recursions (a result of `none`
for every fuel models divergence of the loop).
-/

namespace SourceContextModel

/-! ## Global symbol table (constructor lines 131-142)

The symbol-table operations (`resolve`, `addNewSymbolOfType`) live in
`ContextSymbolTable.ts` / the antlr4-c3 library, which are not part of the
given sources.  Modelled from the spec: "One process-wide global table holds
built-ins (`DEFAULT_TOKEN_CHANNEL`, `HIDDEN`, `EOF`, `DEFAULT_MODE`) and is
lazily initialized exactly once per process lifetime"; resolution on the
global table itself is a plain local name lookup, and `addNewSymbolOfType`
appends a symbol of the given kind and name to the table. -/

inductive BuiltInKind where
  | channel
  | token
  | mode
  deriving DecidableEq

/-- A symbol table here is the insertion-ordered list of (name, kind) pairs. -/
abbrev SymTable := List (String × BuiltInKind)

/-- Modelled from the spec: `resolve` on the global table is a local lookup by
name (the global table has no dependencies). -/
def resolve (t : SymTable) (name : String) : Option BuiltInKind :=
  t.lookup name

/-- The four built-in symbols added by the one-time initialization block of the
`SourceContext` constructor, in source order (lines 137-140). -/
def builtInSymbols : SymTable :=
  [("DEFAULT_TOKEN_CHANNEL", BuiltInKind.channel),
   ("HIDDEN", BuiltInKind.channel),
   ("EOF", BuiltInKind.token),
   ("DEFAULT_MODE", BuiltInKind.mode)]

/-- Effect of one `SourceContext` construction on the static global symbol
table: if `resolve("EOF")` finds nothing, the four built-ins are added
(constructor lines 136-141). -/
def constructorStep (t : SymTable) : SymTable :=
  if (resolve t "EOF").isSome then t else t ++ builtInSymbols

/-- The global table after `n` `SourceContext` constructions in a fresh
process (the static initializer starts from an empty table). -/
def globalSymbolsAfter : Nat → SymTable
  | 0 => []
  | n + 1 => constructorStep (globalSymbolsAfter n)

/-! ## The source-context reference mesh (lines 895-937)

A context is identified by a `Nat`.  `refs c` is the `references` array of
context `c` (the contexts referencing `c`), in insertion order.  The
`while (pipeline.length > 0)` loop of `addAsReferenceTo` is given fuel: one
unit per iteration; `none` for every fuel is divergence of the loop. -/

abbrev Refs := Nat → List Nat

/-- The breadth-first mutual-inclusion walk of `addAsReferenceTo`
(lines 897-909): shift the first pipeline entry, return `true` as soon as
`self` occurs in its `references` list, otherwise append that list to the
pipeline; return `false` when the pipeline empties.  There is no seen-set in
the source, so the pipeline may grow forever. -/
def walkFind (refs : Refs) (self : Nat) : List Nat → Nat → Option Bool
  | _, 0 => none
  | [], _ + 1 => some false
  | current :: rest, fuel + 1 =>
      if self ∈ refs current then some true
      else walkFind refs self (rest ++ refs current) fuel

/-- `context.references.push(this)` of line 910. -/
def pushRef (refs : Refs) (target self : Nat) : Refs :=
  fun c => if c = target then refs c ++ [self] else refs c

/-- `self.addAsReferenceTo(target)` (lines 895-912): run the mutual-inclusion
walk from `target`; if it finds `self` already in a reachable `references`
list the mesh is left unchanged, otherwise `self` is appended to
`target.references`.  (The accompanying `symbolTable.addDependencies` call
touches only the symbol table, not the mesh.)  `none` models a diverging
walk. -/
def addAsReferenceTo (self target : Nat) (refs : Refs) (fuel : Nat) :
    Option Refs :=
  match walkFind refs self [target] fuel with
  | none => none
  | some true => some refs
  | some false => some (pushRef refs target self)

/-- `getReferenceCount` (lines 927-937): the local symbol table's count
(abstracted as `tbl`, since `ContextSymbolTable.getReferenceCount` is not in
the given sources) plus the count of every context in the `references` list,
computed by plain recursion with no cycle protection.  Fuel bounds the
recursion depth; `none` for every fuel is divergence. -/
def getReferenceCount (tbl : Nat → String → Nat) (refs : Refs) (s : String) :
    Nat → Nat → Option Nat
  | 0, _ => none
  | fuel + 1, c =>
      (refs c).foldl
        (fun acc r =>
          match acc, getReferenceCount tbl refs s fuel r with
          | some a, some b => some (a + b)
          | _, _ => none)
        (some (tbl c s))

/-- A mesh in which contexts 0 and 1 mutually reference each other.  This mesh
is reachable through the API: starting from the empty mesh,
`(0).addAsReferenceTo(1)` makes `refs 1 = [0]` and then
`(1).addAsReferenceTo(0)` makes `refs 0 = [1]` (the walk from context 0 only
inspects `refs 0 = []` and finds nothing). -/
def mutualRefs : Refs :=
  fun c => if c = 0 then [1] else if c = 1 then [0] else []

/-- The walk from either context of the mutual pair, searching for an
unrelated context, never terminates: the pipeline alternates between `[0]`
and `[1]` forever. -/
theorem walkFind_mutualRefs_none :
    ∀ fuel, walkFind mutualRefs 2 [0] fuel = none ∧
      walkFind mutualRefs 2 [1] fuel = none := by
  intro fuel
  induction fuel with
  | zero => exact ⟨rfl, rfl⟩
  | succ n ih =>
      constructor
      · show walkFind mutualRefs 2 [0] (n + 1) = none
        simp only [walkFind, mutualRefs]
        simpa using ih.2
      · show walkFind mutualRefs 2 [1] (n + 1) = none
        simp only [walkFind, mutualRefs]
        simpa using ih.1

/-- `getReferenceCount` diverges on the mutual pair for every recursion
depth. -/
theorem getReferenceCount_mutualRefs_none (tbl : Nat → String → Nat)
    (s : String) :
    ∀ fuel, getReferenceCount tbl mutualRefs s fuel 0 = none ∧
      getReferenceCount tbl mutualRefs s fuel 1 = none := by
  intro fuel
  induction fuel with
  | zero => exact ⟨rfl, rfl⟩
  | succ n ih =>
      constructor
      · show getReferenceCount tbl mutualRefs s (n + 1) 0 = none
        simp only [getReferenceCount, mutualRefs]
        simp [ih.2]
      · show getReferenceCount tbl mutualRefs s (n + 1) 1 = none
        simp only [getReferenceCount, mutualRefs]
        simp [ih.1]

end SourceContextModel

namespace SourceContextModel

/-! ## Theorems for C1 and C2 -/

/-- C1 counterexample: the claim asserts that the breadth-first
mutual-inclusion walk of `addAsReferenceTo` terminates on every reference
mesh, including meshes that already contain cycles.  On the mesh where
contexts 0 and 1 mutually reference each other (a mesh reachable through two
successful `addAsReferenceTo` calls), the walk performed by
`(2).addAsReferenceTo(0)` never terminates: the source loop has no seen-set,
so the pipeline cycles between 0 and 1 forever. -/
theorem C1_counterexample :
    ¬ ∃ fuel, (walkFind mutualRefs 2 [0] fuel).isSome := by
  rintro ⟨fuel, h⟩
  rw [(walkFind_mutualRefs_none fuel).1] at h
  simp at h

/-- C1 amended: for contexts `a` and `b` that initially have no referencing
contexts, `a.addAsReferenceTo(b)` followed by `b.addAsReferenceTo(a)`
terminates without creating a duplicate edge, and a repeated
`a.addAsReferenceTo(b)` leaves the mesh unchanged; the walk terminates here
because the portion of the mesh it explores is cycle-free (on meshes that
already contain cycles not involving the adding context the walk diverges,
see the counterexample). -/
theorem C1_theorem (refs : Refs) (a b fuel : Nat) (hab : a ≠ b)
    (ha : refs a = []) (hb : refs b = []) (hfuel : 2 ≤ fuel) :
    ∃ r1 r2,
      addAsReferenceTo a b refs fuel = some r1 ∧
      r1 b = [a] ∧ r1 a = [] ∧
      addAsReferenceTo b a r1 fuel = some r2 ∧
      r2 a = [b] ∧ r2 b = [a] ∧
      addAsReferenceTo a b r2 fuel = some r2 := by
  obtain ⟨f, rfl⟩ : ∃ f, fuel = f + 2 := ⟨fuel - 2, by omega⟩
  have r1b : pushRef refs b a b = [a] := by simp [pushRef, hb]
  have r1a : pushRef refs b a a = [] := by simp [pushRef, hab, ha]
  have w1 : walkFind refs a [b] (f + 2) = some false := by
    simp [walkFind, hb]
  have w2 : walkFind (pushRef refs b a) b [a] (f + 2) = some false := by
    simp [walkFind, r1a]
  refine ⟨pushRef refs b a, pushRef (pushRef refs b a) a b,
    ?_, r1b, r1a, ?_, ?_, ?_, ?_⟩
  · simp [addAsReferenceTo, w1]
  · simp [addAsReferenceTo, w2]
  · simp [pushRef, hab, ha]
  · simp [pushRef, Ne.symm hab, hb]
  · have r2b : pushRef (pushRef refs b a) a b b = [a] := by
      simp [pushRef, Ne.symm hab, hb]
    have w3 : walkFind (pushRef (pushRef refs b a) a b) a [b] (f + 2) =
        some true := by
      simp [walkFind, r2b]
    simp [addAsReferenceTo, w3]

/-- C1 witness: the amended statement evaluated for two fresh contexts 0 and
1 on the empty mesh with fuel 2. -/
theorem C1_witness :
    ∃ r1 r2,
      addAsReferenceTo 0 1 (fun _ => []) 2 = some r1 ∧
      r1 1 = [0] ∧ r1 0 = [] ∧
      addAsReferenceTo 1 0 r1 2 = some r2 ∧
      r2 0 = [1] ∧ r2 1 = [0] ∧
      addAsReferenceTo 0 1 r2 2 = some r2 :=
  C1_theorem (fun _ => []) 0 1 2 (by decide) rfl rfl (by decide)

/-- C2 counterexample: the claim asserts that `getReferenceCount` terminates
also when the reference mesh contains mutual references.  On the mesh where
contexts 0 and 1 mutually reference each other, the recursion of
`getReferenceCount` (which has no cycle protection) never returns, whatever
recursion depth is allowed. -/
theorem C2_counterexample :
    ¬ ∃ fuel,
      (getReferenceCount (fun _ _ => 1) mutualRefs "r" fuel 0).isSome := by
  rintro ⟨fuel, h⟩
  rw [(getReferenceCount_mutualRefs_none (fun _ _ => 1) "r" fuel).1] at h
  simp at h

/-- Evaluating the reference-count recursion body over a list of contexts
whose own recursive counts terminate. -/
theorem getReferenceCount_foldl (tbl : Nat → String → Nat) (refs : Refs)
    (s : String) (fuel : Nat) (vals : Nat → Nat) :
    ∀ (l : List Nat) (acc : Nat),
      (∀ r ∈ l, getReferenceCount tbl refs s fuel r = some (vals r)) →
      l.foldl
        (fun acc r =>
          match acc, getReferenceCount tbl refs s fuel r with
          | some a, some b => some (a + b)
          | _, _ => none)
        (some acc) = some (acc + (l.map vals).sum) := by
  intro l
  induction l with
  | nil => intro acc _; simp
  | cons r t ih =>
      intro acc h
      have hr := h r (List.mem_cons_self r t)
      have ht : ∀ x ∈ t, getReferenceCount tbl refs s fuel x = some (vals x) :=
        fun x hx => h x (List.mem_cons_of_mem r hx)
      simp only [List.foldl_cons, hr]
      rw [ih (acc + vals r) ht]
      simp [Nat.add_assoc]

/-- A diamond mesh: contexts 1 and 2 both reference context 0, and context 3
references both 1 and 2, so context 3 is reachable from context 0 along two
paths. -/
def diamondRefs : Refs :=
  fun c =>
    if c = 0 then [1, 2] else if c = 1 then [3] else if c = 2 then [3] else []

/-- C2 amended: whenever the recursive counts of the contexts in C's
`references` list themselves terminate, C.getReferenceCount(s) equals the
local symbol table's count for s plus the sum of those contexts' counts,
each entry of the `references` list counted exactly once; the recursion does
not terminate on meshes with mutual references (see the counterexample); and
a context reachable along several paths contributes once per path, not once
overall: on the diamond mesh with every local count 1 the result for
context 0 is 5 (the doubly-reachable context 3 counted twice), not 4. -/
theorem C2_theorem (tbl : Nat → String → Nat) (refs : Refs) (s : String)
    (c fuel : Nat) (vals : Nat → Nat)
    (h : ∀ r ∈ refs c, getReferenceCount tbl refs s fuel r = some (vals r)) :
    getReferenceCount tbl refs s (fuel + 1) c =
      some (tbl c s + ((refs c).map vals).sum) ∧
    getReferenceCount (fun _ _ => 1) diamondRefs "x" 3 0 = some 5 := by
  constructor
  · show (refs c).foldl _ (some (tbl c s)) = _
    exact getReferenceCount_foldl tbl refs s fuel vals (refs c) (tbl c s) h
  · decide

/-- C2 witness: the amended statement evaluated on the concrete mesh where
contexts 1 and 2 reference context 0 and nothing references them, with the
local count of every context equal to its own identifier. -/
theorem C2_witness :
    getReferenceCount (fun c _ => c + 1)
      (fun c => if c = 0 then [1, 2] else []) "r" 2 0 = some 6 := by
  have h := C2_theorem (fun c _ => c + 1)
    (fun c => if c = 0 then [1, 2] else []) "r" 0 1 (fun r => r + 1)
    (by intro r hr; simp at hr; rcases hr with h | h <;> simp [h] <;> rfl)
  exact h.1

/-! ## Interpreter data and the serialized automaton (ATN)

The `InterpreterData` blocks are loaded externally (`InterpreterDataReader`);
the engine consumes them as data.  States are identified by their state
number, which indexes the `states` list.  `stateType` uses the antlr4ts
`ATNStateType` numbering (RULE_START = 2, RULE_STOP = 7) and
`serializationType` the antlr4ts `TransitionType` numbering (EPSILON = 1,
RULE = 3, PREDICATE = 4, ACTION = 6, PRECEDENCE = 10). -/

structure ATNTransitionRec where
  target : Nat
  serializationType : Nat
  isEpsilon : Bool
  /-- Follow state of a rule transition (meaningful only when the target is a
  rule start state, the only case in which the source reads it). -/
  followState : Nat
  actionIndex : Nat
  predIndex : Nat
  precedence : Nat
  /-- Token types of a labeled transition (empty when there is no label). -/
  label : List Nat
  deriving DecidableEq

structure ATNStateRec where
  stateType : Nat
  ruleIndex : Nat
  transitions : List ATNTransitionRec
  deriving DecidableEq

structure ATNData where
  states : List ATNStateRec
  ruleToStartState : List Nat
  ruleToStopState : List Nat
  deriving DecidableEq

structure InterpData where
  ruleNames : List String
  atn : ATNData
  deriving DecidableEq

/-- `ATNStateType.RULE_START` in antlr4ts. -/
def ruleStartType : Nat := 2

/-- `TransitionType.RULE` in antlr4ts (the type given to the synthetic back
links). -/
def ruleTransType : Nat := 3

/-- State record for a state number (out-of-range numbers behave as an inert
basic state). -/
def stateAt (atn : ATNData) (n : Nat) : ATNStateRec :=
  atn.states.getD n ⟨1, 0, []⟩

/-- Rule-name-to-index map built by `setupInterpreters` (lines 1545-1549 and
1557-1561): `map.set(ruleNames[i], i)` for increasing `i`, so a later entry
for the same name wins; the association list is kept newest-first. -/
def ruleMapOf (names : List String) : List (String × Nat) :=
  (names.enum.map (fun p => (p.2, p.1))).reverse

/-! ## Source-context state and the parse cycle (lines 751-813, 1506-1579)

`SCState` collects the fields of `SourceContext` that the parse cycle
mutates.  The symbol table is abstracted to the list of its symbol names plus
its dependency list; the work done by the external tree walkers
(`DetailsListener`, `SemanticListener`, `RuleVisitor`, the ANTLR parser
itself) is supplied as parameters, since those classes are not part of the
modelled file. -/

inductive GrammarType where
  | unknown
  | parserGrammar
  | lexerGrammar
  | combined
  deriving DecidableEq

structure SCState where
  symbols : List String
  deps : List String
  diagnostics : List String
  semanticAnalysisDone : Bool
  rrdScripts : Option (List (String × String))
  infoType : GrammarType
  infoImports : List String
  infoUnreferencedRules : List String
  grammarLexerData : Option InterpData
  grammarLexerRuleMap : List (String × Nat)
  grammarParserData : Option InterpData
  grammarParserRuleMap : List (String × Nat)
  tree : Option Nat
  deriving DecidableEq

inductive ErrStrategy where
  | bail
  | defaultStrategy
  deriving DecidableEq

inductive PredMode where
  | sll
  | ll
  deriving DecidableEq

inductive ParseError where
  | cancellation
  | other (code : Nat)
  deriving DecidableEq

/-- The two-tier parse of lines 778-790: try `grammarSpec()` with the bail
error strategy and SLL prediction; exactly when that raises a
`ParseCancellationException`, rewind and reparse once with the default error
strategy and LL prediction; a non-cancellation error of the first attempt and
any error of the second attempt propagate.  The second component records the
(strategy, prediction-mode) pairs actually attempted, in order.  `run` is the
ANTLR parser, abstracted as a function from the configured strategy and mode
to a tree handle or a thrown error. -/
def grammarSpecAttempts (run : ErrStrategy → PredMode → Except ParseError Nat) :
    Except ParseError Nat × List (ErrStrategy × PredMode) :=
  match run .bail .sll with
  | .ok t => (.ok t, [(.bail, .sll)])
  | .error .cancellation =>
      (run .defaultStrategy .ll, [(.bail, .sll), (.defaultStrategy, .ll)])
  | .error (.other c) => (.error (.other c), [(.bail, .sll)])

/-- Results of the externally implemented parts of a parse run: the syntax
diagnostics the error listener collects during the attempts, the grammar type
read off the tree header (lines 792-805), and the symbol table content, the
list of imports and the unreferenced-rule list the `DetailsListener` walk
produces (lines 806-810). -/
structure ParserOutput where
  syntaxDiags : List String
  detectedType : GrammarType
  symbols : List String
  imports : List String
  unreferencedRules : List String

/-- `parse()` (lines 751-813).  The clearing prelude of lines 762-776 resets
the tree, the grammar info, both interpreter-data blocks, the lexer rule map
(twice — line 770 repeats line 768 instead of clearing the parser rule map,
which is left untouched), the memoization flag, the diagnostics and the
symbol table (re-adding the global-table dependency).  Then the two-tier
parse runs; on success the tree walk populates the table and the import list
and `parse` returns the imports, on failure the error propagates with the
cleared state retained. -/
def parse (run : ErrStrategy → PredMode → Except ParseError Nat)
    (out : ParserOutput) (s : SCState) :
    SCState × Except ParseError (List String) :=
  let s1 : SCState :=
    { s with
      tree := none,
      infoType := GrammarType.unknown,
      infoImports := [],
      grammarLexerData := none,
      grammarLexerRuleMap := [],
      grammarParserData := none,
      -- line 770 of the source repeats `grammarLexerRuleMap.clear()`;
      -- `grammarParserRuleMap` is never cleared.
      semanticAnalysisDone := false,
      diagnostics := out.syntaxDiags,
      symbols := [],
      deps := ["Global Symbols"] }
  match grammarSpecAttempts run with
  | (.error e, _) => (s1, .error e)
  | (.ok t, _) =>
      ({ s1 with
          tree := some t,
          infoType := out.detectedType,
          symbols := out.symbols,
          infoImports := out.imports,
          infoUnreferencedRules := out.unreferencedRules },
        .ok out.imports)

/-- `setupInterpreters` (lines 1506-1566): the result of reading the two
interpreter-data files (absent file ↦ `none`) replaces the data blocks and
rebuilds or clears the rule maps.  The file-name computation is path logic on
the host file system and is abstracted into the two load results. -/
def setupInterpreters (lexLoad parLoad : Option InterpData) (s : SCState) :
    SCState :=
  let s1 : SCState :=
    match lexLoad with
    | some d =>
        { s with grammarLexerData := some d,
                 grammarLexerRuleMap := ruleMapOf d.ruleNames }
    | none => { s with grammarLexerData := none, grammarLexerRuleMap := [] }
  match parLoad with
  | some d =>
      { s1 with grammarParserData := some d,
                grammarParserRuleMap := ruleMapOf d.ruleNames }
  | none => { s1 with grammarParserData := none, grammarParserRuleMap := [] }

/-- `runSemanticAnalysisIfNeeded` (lines 1568-1579): on the first call after
a parse it sets the memoization flag, creates the RRD-script map and appends
the semantic walk's diagnostics — deliberately without clearing the list
(the source comments out `this.diagnostics.length = 0`), so the syntax
errors of the last parse run are preserved.  `semDiags` and `scripts` are
the outputs of the external `SemanticListener` and `RuleVisitor` walks. -/
def runSemanticAnalysisIfNeeded (semDiags : List String)
    (scripts : List (String × String)) (s : SCState) : SCState :=
  if s.semanticAnalysisDone then s
  else
    { s with
      semanticAnalysisDone := true,
      rrdScripts := some scripts,
      diagnostics := s.diagnostics ++ semDiags }

/-- `getDiagnostics` (lines 815-819). -/
def getDiagnostics (semDiags : List String) (scripts : List (String × String))
    (s : SCState) : SCState × List String :=
  let s1 := runSemanticAnalysisIfNeeded semDiags scripts s
  (s1, s1.diagnostics)

/-- `getReferenceGraph` (lines 821-882); the graph computation itself walks
the symbol table through API not in the modelled file and is abstracted as
`graphFn` over the table's content. -/
def getReferenceGraph (graphFn : List String → List (String × Nat))
    (semDiags : List String) (scripts : List (String × String))
    (s : SCState) : SCState × List (String × Nat) :=
  let s1 := runSemanticAnalysisIfNeeded semDiags scripts s
  (s1, graphFn s1.symbols)

/-- `getRRDScript` (lines 884-888). -/
def getRRDScript (semDiags : List String) (scripts : List (String × String))
    (s : SCState) (ruleName : String) : SCState × Option String :=
  let s1 := runSemanticAnalysisIfNeeded semDiags scripts s
  (s1, match s1.rrdScripts with
       | some m => m.lookup ruleName
       | none => none)

/-! ## Theorems for C8 -/

/-- C8: the four built-ins `DEFAULT_TOKEN_CHANNEL`, `HIDDEN`, `EOF` and
`DEFAULT_MODE` are added to the process-wide global table exactly once per
process lifetime, no matter how many `SourceContext` instances are
constructed (the one-time initialization is guarded by resolving `EOF`), and
after the first construction `resolve` finds each of the four names. -/
theorem C8_theorem (n : Nat) (h : 1 ≤ n) :
    globalSymbolsAfter n = builtInSymbols ∧
    (resolve (globalSymbolsAfter n) "DEFAULT_TOKEN_CHANNEL").isSome ∧
    (resolve (globalSymbolsAfter n) "HIDDEN").isSome ∧
    (resolve (globalSymbolsAfter n) "EOF").isSome ∧
    (resolve (globalSymbolsAfter n) "DEFAULT_MODE").isSome ∧
    ((globalSymbolsAfter n).countP (fun p => p.1 = "DEFAULT_TOKEN_CHANNEL") = 1 ∧
     (globalSymbolsAfter n).countP (fun p => p.1 = "HIDDEN") = 1 ∧
     (globalSymbolsAfter n).countP (fun p => p.1 = "EOF") = 1 ∧
     (globalSymbolsAfter n).countP (fun p => p.1 = "DEFAULT_MODE") = 1) := by
  have key : globalSymbolsAfter n = builtInSymbols := by
    induction n with
    | zero => omega
    | succ m ih =>
        cases Nat.eq_zero_or_pos m with
        | inl h0 =>
            subst h0
            decide
        | inr hpos =>
            have := ih hpos
            show constructorStep (globalSymbolsAfter m) = builtInSymbols
            rw [this]
            decide
  refine ⟨key, ?_⟩
  rw [key]
  decide

/-- C8 witness: after three constructions the global table holds exactly the
four built-ins, each resolvable and defined once. -/
theorem C8_witness :
    globalSymbolsAfter 3 = builtInSymbols ∧
    (resolve (globalSymbolsAfter 3) "EOF").isSome := by
  have h := C8_theorem 3 (by decide)
  exact ⟨h.1, h.2.2.2.1⟩

/-! ## Theorems for C3, C4 and C9 -/

/-- A small loaded interpreter-data block used in concrete evaluations. -/
def sampleInterp : InterpData := ⟨["r"], ⟨[], [], []⟩⟩

/-- A context state as it looks after a parse, a semantic pass and a
successful generation run: interpreter data loaded, rule maps filled,
diagnostics present. -/
def sampleState : SCState :=
  { symbols := ["A"],
    deps := ["Global Symbols"],
    diagnostics := ["syntax error"],
    semanticAnalysisDone := true,
    rrdScripts := none,
    infoType := GrammarType.combined,
    infoImports := [],
    infoUnreferencedRules := [],
    grammarLexerData := some sampleInterp,
    grammarLexerRuleMap := [("r", 0)],
    grammarParserData := some sampleInterp,
    grammarParserRuleMap := [("r", 0)],
    tree := some 1 }

/-- A parser-output bundle for a clean re-parse. -/
def sampleOut : ParserOutput := ⟨[], GrammarType.combined, ["A"], [], []⟩

/-- A parser whose fast (bail/SLL) attempt raises a cancellation and whose
general (default/LL) attempt succeeds. -/
def sampleRun : ErrStrategy → PredMode → Except ParseError Nat :=
  fun st _ =>
    match st with
    | ErrStrategy.bail => Except.error ParseError.cancellation
    | ErrStrategy.defaultStrategy => Except.ok 7

/-- The state effects of the clearing prelude of `parse`, shared by the
frame-effect and memoization theorems. -/
theorem parse_clears (run : ErrStrategy → PredMode → Except ParseError Nat)
    (out : ParserOutput) (s : SCState) :
    (parse run out s).1.grammarLexerData = none ∧
    (parse run out s).1.grammarParserData = none ∧
    (parse run out s).1.grammarLexerRuleMap = [] ∧
    (parse run out s).1.grammarParserRuleMap = s.grammarParserRuleMap ∧
    (parse run out s).1.semanticAnalysisDone = false ∧
    (parse run out s).1.diagnostics = out.syntaxDiags ∧
    (parse run out s).1.deps = ["Global Symbols"] := by
  cases hg : grammarSpecAttempts run with
  | mk res trace =>
      cases res with
      | error e => simp [parse, hg]
      | ok t => simp [parse, hg]

/-- C3 counterexample: the claim states that previously loaded interpreter
data remains unchanged by `parse` and that `parse` clears the rule-index map
state.  On a state with loaded data, `parse` resets both data blocks to
`undefined` (lines 767-769) while leaving `grammarParserRuleMap` untouched
(line 770 clears the lexer map a second time instead). -/
theorem C3_counterexample :
    (parse sampleRun sampleOut sampleState).1.grammarParserData ≠
      sampleState.grammarParserData ∧
    (parse sampleRun sampleOut sampleState).1.grammarLexerData ≠
      sampleState.grammarLexerData ∧
    (parse sampleRun sampleOut sampleState).1.grammarParserRuleMap ≠ [] := by
  decide

/-- C3 amended: every call to `parse` clears the symbol table (the previous
contents are gone whether the parse attempt succeeds — leaving exactly the
new walk's symbols — or throws, leaving the table empty), clears the
diagnostics list (then refilled with the new run's syntax errors), the
memoization flag and the lexer rule-index map (the latter twice, by a
copy-paste slip, so the parser rule-index map survives), and resets both
interpreter-data blocks to `undefined`; interpreter data is therefore
discarded by `parse` and repopulated only by an explicit `setupInterpreters`
load. -/
theorem C3_theorem (run : ErrStrategy → PredMode → Except ParseError Nat)
    (out : ParserOutput) (s : SCState) :
    ((parse run out s).1.symbols =
      match (grammarSpecAttempts run).1 with
      | Except.error _ => []
      | Except.ok _ => out.symbols) ∧
    (parse run out s).1.grammarLexerData = none ∧
    (parse run out s).1.grammarParserData = none ∧
    (parse run out s).1.grammarLexerRuleMap = [] ∧
    (parse run out s).1.grammarParserRuleMap = s.grammarParserRuleMap ∧
    (parse run out s).1.semanticAnalysisDone = false ∧
    (parse run out s).1.diagnostics = out.syntaxDiags ∧
    (parse run out s).1.deps = ["Global Symbols"] ∧
    (∀ lexLoad parLoad,
      (setupInterpreters lexLoad parLoad (parse run out s).1).grammarLexerData =
        lexLoad ∧
      (setupInterpreters lexLoad parLoad (parse run out s).1).grammarParserData =
        parLoad) := by
  have h := parse_clears run out s
  have hsym : (parse run out s).1.symbols =
      match (grammarSpecAttempts run).1 with
      | Except.error _ => []
      | Except.ok _ => out.symbols := by
    cases hg : grammarSpecAttempts run with
    | mk res trace =>
        cases res with
        | error e => simp [parse, hg]
        | ok t => simp [parse, hg]
  refine ⟨hsym, h.1, h.2.1, h.2.2.1, h.2.2.2.1, h.2.2.2.2.1, h.2.2.2.2.2.1,
    h.2.2.2.2.2.2, ?_⟩
  intro lexLoad parLoad
  cases lexLoad <;> cases parLoad <;> exact ⟨rfl, rfl⟩

/-- C4: `parse` first attempts a fail-fast parse (bail strategy, SLL); if and
only if that attempt raises a `ParseCancellationException` the stream is
parsed exactly once more with the default strategy and LL prediction; a
non-cancellation error of the fast attempt and any error of the second
attempt are rethrown to the caller of `parse`. -/
theorem C4_theorem (run : ErrStrategy → PredMode → Except ParseError Nat)
    (out : ParserOutput) (s : SCState) :
    (∀ t, run .bail .sll = .ok t →
      grammarSpecAttempts run = (.ok t, [(.bail, .sll)])) ∧
    (run .bail .sll = .error .cancellation →
      grammarSpecAttempts run =
        (run .defaultStrategy .ll, [(.bail, .sll), (.defaultStrategy, .ll)])) ∧
    (∀ c, run .bail .sll = .error (.other c) →
      grammarSpecAttempts run = (.error (.other c), [(.bail, .sll)])) ∧
    ((ErrStrategy.defaultStrategy, PredMode.ll) ∈ (grammarSpecAttempts run).2 ↔
      run .bail .sll = .error .cancellation) ∧
    ((parse run out s).2 =
      match (grammarSpecAttempts run).1 with
      | .ok _ => .ok out.imports
      | .error e => .error e) := by
  cases hr : run ErrStrategy.bail PredMode.sll with
  | ok t0 =>
      refine ⟨?_, ?_, ?_, ?_, ?_⟩
      · intro t ht
        cases ht
        simp [grammarSpecAttempts, hr]
      · intro h; cases h
      · intro c h; cases h
      · simp [grammarSpecAttempts, hr]
      · simp [parse, grammarSpecAttempts, hr]
  | error e =>
      cases e with
      | cancellation =>
          refine ⟨?_, ?_, ?_, ?_, ?_⟩
          · intro t ht; cases ht
          · intro _; simp [grammarSpecAttempts, hr]
          · intro c h; cases h
          · simp [grammarSpecAttempts, hr]
          · cases hd : run ErrStrategy.defaultStrategy PredMode.ll with
            | ok t1 => simp [parse, grammarSpecAttempts, hr, hd]
            | error e1 => simp [parse, grammarSpecAttempts, hr, hd]
      | other c0 =>
          refine ⟨?_, ?_, ?_, ?_, ?_⟩
          · intro t ht; cases ht
          · intro h; cases h
          · intro c h
            cases h
            simp [grammarSpecAttempts, hr]
          · simp [grammarSpecAttempts, hr]
          · simp [parse, grammarSpecAttempts, hr]

/-- C4 witness: for the parser whose fast attempt raises a cancellation and
whose second attempt yields tree 7, the attempt trace contains exactly the
two strategy/mode pairs and the result is the second attempt's tree. -/
theorem C4_witness :
    grammarSpecAttempts sampleRun =
      (.ok 7, [(.bail, .sll), (.defaultStrategy, .ll)]) := by
  have h := (C4_theorem sampleRun sampleOut sampleState).2.1 (by rfl)
  rw [h]
  rfl

/-- C9: semantic analysis runs at most once per parse generation — the three
entry points `getDiagnostics`, `getReferenceGraph` and `getRRDScript` all
route through `runSemanticAnalysisIfNeeded`, which is idempotent; the
semantic walk appends its findings without clearing the diagnostics of the
preceding parse; and a new `parse` (and only it) resets the memoization flag
and the diagnostics list. -/
theorem C9_theorem (semDiags : List String) (scripts : List (String × String))
    (graphFn : List String → List (String × Nat))
    (run : ErrStrategy → PredMode → Except ParseError Nat) (out : ParserOutput)
    (s : SCState) (ruleName : String) :
    (runSemanticAnalysisIfNeeded semDiags scripts
        (runSemanticAnalysisIfNeeded semDiags scripts s) =
      runSemanticAnalysisIfNeeded semDiags scripts s) ∧
    (s.semanticAnalysisDone = false →
      (runSemanticAnalysisIfNeeded semDiags scripts s).diagnostics =
        s.diagnostics ++ semDiags) ∧
    (s.semanticAnalysisDone = true →
      runSemanticAnalysisIfNeeded semDiags scripts s = s) ∧
    ((getDiagnostics semDiags scripts s).1 =
      runSemanticAnalysisIfNeeded semDiags scripts s) ∧
    ((getReferenceGraph graphFn semDiags scripts s).1 =
      runSemanticAnalysisIfNeeded semDiags scripts s) ∧
    ((getRRDScript semDiags scripts s ruleName).1 =
      runSemanticAnalysisIfNeeded semDiags scripts s) ∧
    (s.diagnostics <+:
      (runSemanticAnalysisIfNeeded semDiags scripts s).diagnostics) ∧
    ((parse run out s).1.semanticAnalysisDone = false ∧
      (parse run out s).1.diagnostics = out.syntaxDiags) := by
  have hparse := parse_clears run out s
  refine ⟨?_, ?_, ?_, rfl, rfl, rfl, ?_, hparse.2.2.2.2.1, hparse.2.2.2.2.2.1⟩
  · by_cases h : s.semanticAnalysisDone <;>
      simp [runSemanticAnalysisIfNeeded, h]
  · intro h; simp [runSemanticAnalysisIfNeeded, h]
  · intro h; simp [runSemanticAnalysisIfNeeded, h]
  · by_cases h : s.semanticAnalysisDone <;>
      simp [runSemanticAnalysisIfNeeded, h]

/-- C9 witness: on a freshly parsed state the semantic pass appends its
diagnostics after the preserved syntax errors. -/
theorem C9_witness :
    (runSemanticAnalysisIfNeeded ["undefined rule s"] []
        (parse sampleRun sampleOut sampleState).1).diagnostics =
      (parse sampleRun sampleOut sampleState).1.diagnostics ++
        ["undefined rule s"] := by
  have h := C9_theorem ["undefined rule s"] [] (fun _ => []) sampleRun
    sampleOut (parse sampleRun sampleOut sampleState).1 "r"
  exact h.2.1 (parse_clears sampleRun sampleOut sampleState).2.2.2.2.1

/-! ## Sentence generation (lines 1274-1362, claim C7)

`SentenceGenerator.generate` is an external class; it is abstracted as `gen`,
mapping the loop index of each invocation to the produced sentence or the
thrown error (errors are represented by their message text).  The callback
invocations are collected into the returned list of (text, index) pairs. -/

/-- `isInterpreterDataLoaded` (lines 1477-1479). -/
def isInterpreterDataLoaded (s : SCState) : Bool :=
  s.grammarLexerData.isSome || s.grammarParserData.isSome

/-- `rule[0] === rule[0].toUpperCase()` for a non-empty rule name.  (On the
empty string JavaScript would throw; all users of this helper guard the empty
case first or, in `getATNGraph`, are modelled as raising.) -/
def jsIsUpperStart (rule : String) : Bool :=
  match rule.toList with
  | [] => false
  | c :: _ => c.toUpper == c

/-- Lexer data selected by the `switch (this.info.type)` of lines 1293-1319:
for a parser grammar it is taken from the first dependency whose grammar type
is `Lexer` (whose own `grammarLexerData` may still be absent). -/
def sentenceLexerData (s : SCState) (deps : List SCState) : Option InterpData :=
  match s.infoType with
  | GrammarType.combined => s.grammarLexerData
  | GrammarType.lexerGrammar => s.grammarLexerData
  | GrammarType.parserGrammar =>
      match deps.find? (fun d => d.infoType == GrammarType.lexerGrammar) with
      | some d => d.grammarLexerData
      | none => none
  | GrammarType.unknown => none

/-- Parser data selected by the same `switch`. -/
def sentenceParserData (s : SCState) : Option InterpData :=
  match s.infoType with
  | GrammarType.combined => s.grammarParserData
  | GrammarType.parserGrammar => s.grammarParserData
  | _ => none

/-- The generation loop of lines 1355-1358 together with the surrounding
`try`/`catch` of lines 1352-1361: each successful `generator.generate` call
is delivered through the callback with its index; the first thrown error is
delivered once, with index 0, and ends the loop. -/
def sentenceLoop (gen : Nat → Except String String) :
    Nat → Nat → List (String × Nat)
  | _, 0 => []
  | i, remaining + 1 =>
      match gen i with
      | Except.ok str => (str, i) :: sentenceLoop gen (i + 1) remaining
      | Except.error e => [(e, 0)]

/-- `generateSentence` (lines 1274-1362): the guard cascade delivering the
placeholder strings, then `max(options.count ?? 1, 1)` generation rounds. -/
def generateSentence (s : SCState) (deps : List SCState) (rule : String)
    (countOpt : Option Nat) (gen : Nat → Except String String) :
    List (String × Nat) :=
  if isInterpreterDataLoaded s = false then [("[No grammar data available]", 0)]
  else if rule.length = 0 then [("[No rule specified]", 0)]
  else
    let isLexerRule := jsIsUpperStart rule
    match sentenceLexerData s deps with
    | none => [("[No lexer data available]", 0)]
    | some _ =>
        if isLexerRule = false ∧ sentenceParserData s = none then
          [("[No parser data available]", 0)]
        else if isLexerRule then
          match s.grammarLexerRuleMap.lookup rule with
          | none => [("[Virtual or undefined token]", 0)]
          | some _ => sentenceLoop gen 0 (max (countOpt.getD 1) 1)
        else
          match s.grammarParserRuleMap.lookup rule with
          | none => [("[Undefined rule]", 0)]
          | some _ => sentenceLoop gen 0 (max (countOpt.getD 1) 1)

/-- The generation loop on an error-free generator delivers one sentence per
index. -/
theorem sentenceLoop_ok (gen : Nat → Except String String) (outs : Nat → String) :
    ∀ remaining start,
      (∀ j, j < remaining → gen (start + j) = Except.ok (outs (start + j))) →
      sentenceLoop gen start remaining =
        (List.range remaining).map (fun j => (outs (start + j), start + j)) := by
  intro remaining
  induction remaining with
  | zero => intro start _; rfl
  | succ m ih =>
      intro start h
      have h0 : gen start = Except.ok (outs start) := by
        have := h 0 (Nat.succ_pos m)
        simpa using this
      have ht : ∀ j, j < m → gen (start + 1 + j) = Except.ok (outs (start + 1 + j)) := by
        intro j hj
        have := h (j + 1) (Nat.succ_lt_succ hj)
        have harith : start + (j + 1) = start + 1 + j := by omega
        rwa [harith] at this
      show (match gen start with
        | Except.ok str => (str, start) :: sentenceLoop gen (start + 1) m
        | Except.error e => [(e, 0)]) = _
      rw [h0, ih (start + 1) ht, List.range_succ_eq_map]
      simp only [List.map_cons, List.map_map, Nat.add_zero]
      refine congrArg (_ :: ·) (List.map_congr_left ?_)
      intro j _
      simp only [Function.comp]
      have harith : start + (j + 1) = start + 1 + j := by omega
      rw [harith]

/-- The generation loop on a generator that fails at index `k` delivers the
`k` successful sentences and then the error once, with index 0. -/
theorem sentenceLoop_error (gen : Nat → Except String String)
    (outs : Nat → String) (e : String) :
    ∀ (k remaining start : Nat), k < remaining →
      (∀ j, j < k → gen (start + j) = Except.ok (outs (start + j))) →
      gen (start + k) = Except.error e →
      sentenceLoop gen start remaining =
        (List.range k).map (fun j => (outs (start + j), start + j)) ++ [(e, 0)] := by
  intro k
  induction k with
  | zero =>
      intro remaining start hk _ he
      obtain ⟨m, rfl⟩ : ∃ m, remaining = m + 1 := ⟨remaining - 1, by omega⟩
      show (match gen start with
        | Except.ok str => (str, start) :: sentenceLoop gen (start + 1) m
        | Except.error e0 => [(e0, 0)]) = _
      have he0 : gen start = Except.error e := by simpa using he
      rw [he0]
      simp
  | succ n ih =>
      intro remaining start hk hok he
      obtain ⟨m, rfl⟩ : ∃ m, remaining = m + 1 := ⟨remaining - 1, by omega⟩
      have h0 : gen start = Except.ok (outs start) := by
        have := hok 0 (Nat.succ_pos n)
        simpa using this
      have hok' : ∀ j, j < n → gen (start + 1 + j) = Except.ok (outs (start + 1 + j)) := by
        intro j hj
        have := hok (j + 1) (Nat.succ_lt_succ hj)
        have harith : start + (j + 1) = start + 1 + j := by omega
        rwa [harith] at this
      have he' : gen (start + 1 + n) = Except.error e := by
        have harith : start + (n + 1) = start + 1 + n := by omega
        rwa [harith] at he
      show (match gen start with
        | Except.ok str => (str, start) :: sentenceLoop gen (start + 1) m
        | Except.error e0 => [(e0, 0)]) = _
      rw [h0, ih m (start + 1) (by omega) hok' he', List.range_succ_eq_map]
      simp only [List.map_cons, List.map_map, Nat.add_zero, List.cons_append]
      refine congrArg (_ :: ·) (congrArg (· ++ [(e, 0)]) (List.map_congr_left ?_))
      intro j _
      simp only [Function.comp]
      have harith : start + (j + 1) = start + 1 + j := by omega
      rw [harith]

/-- C7 counterexample: the claim states that past the guard cascade the
callback is invoked exactly `max(options.count, 1)` times and that a
generation failure is reported once per requested sentence index.  With three
sentences requested and a generator whose first call throws, the single
`try`/`catch` around the whole loop (lines 1352-1361) delivers the error
once, with index 0, and the callback is invoked once, not three times. -/
theorem C7_counterexample :
    generateSentence sampleState [] "r" (some 3) (fun _ => Except.error "failed") =
      [("failed", 0)] ∧
    (generateSentence sampleState [] "r" (some 3)
        (fun _ => Except.error "failed")).length ≠ 3 := by
  constructor
  · rfl
  · decide

/-- C7 amended: `generateSentence` never raises to its caller — each missing
dependency of the guard cascade delivers its descriptive placeholder string
through the callback once (with index 0); past the cascade the callback is
invoked exactly `max(options.count, 1)` times when every generation round
succeeds, while a generation failure is delivered through the callback once,
with index 0, after the successfully generated sentences, aborting the
remaining rounds. -/
theorem C7_theorem (s : SCState) (deps : List SCState) (rule : String)
    (countOpt : Option Nat) (gen : Nat → Except String String)
    (outs : Nat → String) (e : String) :
    (isInterpreterDataLoaded s = false →
      generateSentence s deps rule countOpt gen =
        [("[No grammar data available]", 0)]) ∧
    (isInterpreterDataLoaded s = true → rule = "" →
      generateSentence s deps rule countOpt gen = [("[No rule specified]", 0)]) ∧
    (isInterpreterDataLoaded s = true → rule.length ≠ 0 →
      sentenceLexerData s deps = none →
      generateSentence s deps rule countOpt gen =
        [("[No lexer data available]", 0)]) ∧
    (∀ ld, isInterpreterDataLoaded s = true → rule.length ≠ 0 →
      jsIsUpperStart rule = false →
      sentenceLexerData s deps = some ld →
      sentenceParserData s = none →
      generateSentence s deps rule countOpt gen =
        [("[No parser data available]", 0)]) ∧
    (∀ ld, isInterpreterDataLoaded s = true → rule.length ≠ 0 →
      jsIsUpperStart rule = true →
      sentenceLexerData s deps = some ld →
      s.grammarLexerRuleMap.lookup rule = none →
      generateSentence s deps rule countOpt gen =
        [("[Virtual or undefined token]", 0)]) ∧
    (∀ ld pd, isInterpreterDataLoaded s = true → rule.length ≠ 0 →
      jsIsUpperStart rule = false →
      sentenceLexerData s deps = some ld →
      sentenceParserData s = some pd →
      s.grammarParserRuleMap.lookup rule = none →
      generateSentence s deps rule countOpt gen = [("[Undefined rule]", 0)]) ∧
    (∀ ld idx, isInterpreterDataLoaded s = true → rule.length ≠ 0 →
      jsIsUpperStart rule = true →
      sentenceLexerData s deps = some ld →
      s.grammarLexerRuleMap.lookup rule = some idx →
      generateSentence s deps rule countOpt gen =
        sentenceLoop gen 0 (max (countOpt.getD 1) 1)) ∧
    (∀ ld pd idx, isInterpreterDataLoaded s = true → rule.length ≠ 0 →
      jsIsUpperStart rule = false →
      sentenceLexerData s deps = some ld →
      sentenceParserData s = some pd →
      s.grammarParserRuleMap.lookup rule = some idx →
      generateSentence s deps rule countOpt gen =
        sentenceLoop gen 0 (max (countOpt.getD 1) 1)) ∧
    ((∀ i, i < max (countOpt.getD 1) 1 → gen i = Except.ok (outs i)) →
      sentenceLoop gen 0 (max (countOpt.getD 1) 1) =
        (List.range (max (countOpt.getD 1) 1)).map (fun i => (outs i, i)) ∧
      (sentenceLoop gen 0 (max (countOpt.getD 1) 1)).length =
        max (countOpt.getD 1) 1) ∧
    (∀ k, k < max (countOpt.getD 1) 1 →
      (∀ i, i < k → gen i = Except.ok (outs i)) →
      gen k = Except.error e →
      sentenceLoop gen 0 (max (countOpt.getD 1) 1) =
        (List.range k).map (fun i => (outs i, i)) ++ [(e, 0)]) := by
  refine ⟨?_, ?_, ?_, ?_, ?_, ?_, ?_, ?_, ?_, ?_⟩
  · intro h; simp [generateSentence, h]
  · intro h1 h2; subst h2; simp [generateSentence, h1]
  · intro h1 h2 h3; simp [generateSentence, h1, h2, h3]
  · intro ld h1 h2 h3 h4 h5
    simp [generateSentence, h1, h2, h3, h4, h5]
  · intro ld h1 h2 h3 h4 h5
    simp [generateSentence, h1, h2, h3, h4, h5]
  · intro ld pd h1 h2 h3 h4 h5 h6
    simp [generateSentence, h1, h2, h3, h4, h5, h6]
  · intro ld idx h1 h2 h3 h4 h5
    simp [generateSentence, h1, h2, h3, h4, h5]
  · intro ld pd idx h1 h2 h3 h4 h5 h6
    simp [generateSentence, h1, h2, h3, h4, h5, h6]
  · intro hok
    have h := sentenceLoop_ok gen outs (max (countOpt.getD 1) 1) 0
      (by intro j hj; simpa using hok j hj)
    constructor
    · simpa using h
    · rw [h]; simp
  · intro k hk hok he
    have h := sentenceLoop_error gen outs e k (max (countOpt.getD 1) 1) 0 hk
      (by intro j hj; simpa using hok j hj) (by simpa using he)
    simpa using h

/-- C7 witness: on the combined sample state, two requested sentences for
parser rule "r" with an error-free generator are delivered with indices 0 and
1, and the counterexample path is reproduced through the theorem's failure
conjunct. -/
theorem C7_witness :
    generateSentence sampleState [] "r" (some 2)
      (fun i => Except.ok (toString i)) = [("0", 0), ("1", 1)] := by
  have hth := C7_theorem sampleState [] "r" (some 2)
    (fun i => Except.ok (toString i)) (fun i => toString i) "unused"
  have hroute := hth.2.2.2.2.2.2.2.1 sampleInterp sampleInterp 0
    (by rfl) (by decide) (by rfl) (by rfl) (by rfl) (by rfl)
  have hloop := (hth.2.2.2.2.2.2.2.2.1 (by intro i _; rfl)).1
  rw [hroute, hloop]
  rfl

/-! ## The automaton graph extractor (`getATNGraph`, lines 1096-1264)

The extractor is a breadth-first walk over the automaton of one rule: a
`pipeline` worklist, a `seenStates` set of every state that ever entered the
worklist, a `stateToIndex` map from composite node ids to node indices
(modelled as an association list whose newest entry wins, matching
`Map.set`), the produced `nodes` and `links`, and the decreasing id counter
for synthetic rule nodes.

Three fields are specification instrumentation with no counterpart in the
source state, used only to state properties of the walk: `expanded` records
the states taken off the worklist, `stateNodeIds` the ids of nodes created
under a plain state-number key, and `callNodes` counts the nodes created for
rule invocations (the synthetic type-13 nodes plus nodes created under a
composite call-site id). -/

structure ATNNode where
  id : Int
  name : String
  type : Nat
  deriving DecidableEq

structure ATNLinkRec where
  source : Nat
  target : Nat
  type : Nat
  labels : List String
  deriving DecidableEq

structure ATNGraphData where
  nodes : List ATNNode
  links : List ATNLinkRec
  deriving DecidableEq

structure ATNGraphState where
  seenStates : List Nat
  pipeline : List Nat
  stateToIndex : List (Nat × Nat)
  nodes : List ATNNode
  links : List ATNLinkRec
  currentRuleIndex : Int
  expanded : List Nat
  stateNodeIds : List Nat
  callNodes : Nat
  deriving DecidableEq

/-- Newest-entry-wins association lookup, the behaviour of the source's
`Map` under `set`/`get` when updates are modelled by consing. -/
def alookup (id : Nat) : List (Nat × Nat) → Option Nat
  | [] => none
  | (k, v) :: rest => if id = k then some v else alookup id rest

/-- `ensureATNNode` (lines 1136-1164): look the id up; on a miss, push a new
node for the state (id, its number as name, its state type) and register it;
if the state's single transition enters a rule start state, additionally
register a synthetic rule node — labeled with the target rule's name, with
fake type 13 and the next negative id — under the composite id
`stateNumber × targetStateNumber`.  `isCall` is instrumentation marking
lookups made for a rule-invocation target. -/
def ensureATNNode (atn : ATNData) (ruleNames : List String) (isCall : Bool)
    (g : ATNGraphState) (id stNum : Nat) : Nat × ATNGraphState :=
  match alookup id g.stateToIndex with
  | some index => (index, g)
  | none =>
      let st := stateAt atn stNum
      let index := g.nodes.length
      let g1 : ATNGraphState :=
        { g with
          stateToIndex := (id, index) :: g.stateToIndex,
          nodes := g.nodes ++ [⟨(id : Int), toString id, st.stateType⟩],
          stateNodeIds :=
            if isCall then g.stateNodeIds else g.stateNodeIds ++ [id],
          callNodes := if isCall then g.callNodes + 1 else g.callNodes }
      match st.transitions with
      | [t] =>
          if (stateAt atn t.target).stateType = ruleStartType then
            (index,
              { g1 with
                stateToIndex :=
                  (stNum * t.target, g1.nodes.length) :: g1.stateToIndex,
                nodes := g1.nodes ++
                  [⟨g.currentRuleIndex,
                    ruleNames.getD (stateAt atn t.target).ruleIndex "", 13⟩],
                currentRuleIndex := g.currentRuleIndex - 1,
                callNodes := g1.callNodes + 1 })
          else (index, g1)
      | _ => (index, g1)

/-- Edge labels per transition kind (lines 1190-1232).  `vocab` is the
loaded vocabulary's display-name function and `intervalStrings` stands for
`intervalSetToStrings`, the lexer character-interval rendering (pure string
formatting that no claim concerns). -/
def transitionLabels (isLexerRule : Bool) (vocab : Nat → String)
    (intervalStrings : List Nat → List String) (t : ATNTransitionRec) :
    List String :=
  if t.serializationType = 6 then
    let index : Int := if t.actionIndex = 0xFFFF then -1 else (t.actionIndex : Int)
    if isLexerRule then ["<lexer action " ++ toString index ++ ">"]
    else ["<parser action " ++ toString index ++ ">"]
  else if t.serializationType = 4 then
    ["<predicate " ++ toString t.predIndex ++ ">"]
  else if t.serializationType = 10 then
    ["<precedence predicate " ++ toString t.precedence ++ ">"]
  else if t.isEpsilon then ["ε"]
  else if t.label ≠ [] then
    if isLexerRule then intervalStrings t.label else t.label.map vocab
  else []

/-- Guarded worklist insertion (lines 1254-1259): a state enters the
pipeline only if it is not yet in the seen set, and it enters the seen set at
the same moment. -/
def pushIfUnseen (next : Nat) (g : ATNGraphState) : ATNGraphState :=
  if next ∈ g.seenStates then g
  else
    { g with
      seenStates := g.seenStates ++ [next],
      pipeline := g.pipeline ++ [next] }

/-- `result.links.push(...)`. -/
def addLink (l : ATNLinkRec) (g : ATNGraphState) : ATNGraphState :=
  { g with links := g.links ++ [l] }

/-- Handling of one transition of the expanded state (lines 1170-1260): the
target node id is the composite `target × state` for transitions entering a
rule start state and the plain target number otherwise; the link is recorded;
for a rule transition a back link (type `RULE`, label ε) from the target node
to the follow state's node is added and the follow state — never the rule's
start state — is the candidate for the worklist, guarded by `seenStates`. -/
def processTransition (atn : ATNData) (ruleNames : List String)
    (isLexerRule : Bool) (vocab : Nat → String)
    (intervalStrings : List Nat → List String) (sourceIndex stNum : Nat)
    (g : ATNGraphState) (t : ATNTransitionRec) : ATNGraphState :=
  let transitsToRule : Bool := (stateAt atn t.target).stateType == ruleStartType
  let marker := t.target * (if transitsToRule then stNum else 1)
  let e1 := ensureATNNode atn ruleNames transitsToRule g marker t.target
  let g2 := addLink
    ⟨sourceIndex, e1.1, t.serializationType,
      transitionLabels isLexerRule vocab intervalStrings t⟩ e1.2
  if transitsToRule then
    let e2 := ensureATNNode atn ruleNames false g2 t.followState t.followState
    let g3 := addLink ⟨e1.1, e2.1, ruleTransType, ["ε"]⟩ e2.2
    pushIfUnseen t.followState g3
  else
    pushIfUnseen t.target g2

/-- One iteration of the `while (pipeline.length > 0)` loop (lines
1166-1261): shift the first worklist entry, ensure its node, and — unless the
state is the rule's stop state, whose outgoing transitions are never followed
— process each of its transitions in order. -/
def atnStep (atn : ATNData) (ruleNames : List String) (isLexerRule : Bool)
    (vocab : Nat → String) (intervalStrings : List Nat → List String)
    (stopState : Nat) (g : ATNGraphState) : ATNGraphState :=
  match g.pipeline with
  | [] => g
  | stNum :: rest =>
      let g0 : ATNGraphState :=
        { g with pipeline := rest, expanded := g.expanded ++ [stNum] }
      let e1 := ensureATNNode atn ruleNames false g0 stNum stNum
      if stNum = stopState then e1.2
      else
        (stateAt atn stNum).transitions.foldl
          (processTransition atn ruleNames isLexerRule vocab intervalStrings
            e1.1 stNum)
          e1.2

/-- The extraction loop, driven by fuel (one unit per iteration; the source
loop terminates because every state enters the worklist at most once). -/
def atnRun (atn : ATNData) (ruleNames : List String) (isLexerRule : Bool)
    (vocab : Nat → String) (intervalStrings : List Nat → List String)
    (stopState : Nat) : Nat → ATNGraphState → ATNGraphState
  | 0, g => g
  | fuel + 1, g =>
      match g.pipeline with
      | [] => g
      | _ :: _ =>
          atnRun atn ruleNames isLexerRule vocab intervalStrings stopState fuel
            (atnStep atn ruleNames isLexerRule vocab intervalStrings stopState g)

/-- The walk's starting state: the rule's start state is pre-seeded into both
the worklist and the seen set (line 1116-1117). -/
def atnInitial (startState : Nat) : ATNGraphState :=
  { seenStates := [startState], pipeline := [startState], stateToIndex := [],
    nodes := [], links := [], currentRuleIndex := -1,
    expanded := [], stateNodeIds := [], callNodes := 0 }

/-- The full extraction run for one rule. -/
def extractRun (atn : ATNData) (ruleNames : List String) (isLexerRule : Bool)
    (vocab : Nat → String) (intervalStrings : List Nat → List String)
    (stopState fuel startState : Nat) : ATNGraphState :=
  atnRun atn ruleNames isLexerRule vocab intervalStrings stopState fuel
    (atnInitial startState)

/-- `getATNGraph` (lines 1096-1264): the rule-kind test evaluates
`rule[0].toUpperCase()`, which on the empty string applies `toUpperCase` to
`undefined` and throws a `TypeError` (modelled as `Except.error ()`); with a
non-empty rule, missing interpreter data or an unknown rule yield
`undefined`, otherwise the graph of the breadth-first walk. -/
def getATNGraph (s : SCState) (vocab : Nat → String)
    (intervalStrings : List Nat → List String) (fuel : Nat) (rule : String) :
    Except Unit (Option ATNGraphData) :=
  match rule.toList with
  | [] => Except.error ()
  | c :: _ =>
      let isLexerRule := c.toUpper == c
      if (isLexerRule && (s.grammarLexerData.isNone)) ||
          (!isLexerRule && (s.grammarParserData.isNone)) then Except.ok none
      else
        let ruleIndexMap :=
          if isLexerRule then s.grammarLexerRuleMap else s.grammarParserRuleMap
        match ruleIndexMap.lookup rule with
        | none => Except.ok none
        | some ruleIndex =>
            let data :=
              (if isLexerRule then s.grammarLexerData
               else s.grammarParserData).getD ⟨[], ⟨[], [], []⟩⟩
            let startState := data.atn.ruleToStartState.getD ruleIndex 0
            let stopState := data.atn.ruleToStopState.getD ruleIndex 0
            let g := extractRun data.atn data.ruleNames isLexerRule vocab
              intervalStrings stopState fuel startState
            Except.ok (some ⟨g.nodes, g.links⟩)

/-! ### Invariants of the breadth-first walk -/

/-- A list followed by a fresh element stays duplicate-free. -/
theorem nodup_append_single (l : List Nat) (a : Nat) (h : l.Nodup)
    (ha : a ∉ l) : (l ++ [a]).Nodup := by
  induction l with
  | nil => simp
  | cons x xs ih =>
      rcases List.nodup_cons.1 h with ⟨hx, hxs⟩
      have ha' : a ∉ xs := fun hm => ha (List.mem_cons_of_mem _ hm)
      have hax : a ≠ x := fun he => ha (he ▸ List.mem_cons_self x xs)
      refine List.nodup_cons.2 ⟨?_, ih hxs ha'⟩
      intro hmem
      rcases List.mem_append.1 hmem with h1 | h2
      · exact hx h1
      · exact hax (List.mem_singleton.1 h2).symm

/-- Adding a map entry preserves resolvability of every id. -/
theorem alookup_cons_isSome (k v x : Nat) (l : List (Nat × Nat))
    (h : (alookup x l).isSome) : (alookup x ((k, v) :: l)).isSome := by
  by_cases hx : x = k <;> simp [alookup, hx, h]

/-- Invariant of the walk state, relative to a list `extra` of states whose
worklist insertion is still pending within the current transition: every
state ever taken off the worklist was taken off exactly once; the seen set is
exactly the union of the expanded states and the pending worklist, without
duplicates; the node count splits into the state-keyed nodes and the
rule-call nodes; and every state-keyed node id is a seen (or pending) state
registered in the id map. -/
structure GInvX (g : ATNGraphState) (extra : List Nat) : Prop where
  nodupWork : (g.expanded ++ g.pipeline).Nodup
  seenIff : ∀ x, x ∈ g.seenStates ↔ x ∈ g.expanded ∨ x ∈ g.pipeline
  seenNodup : g.seenStates.Nodup
  countEq : g.nodes.length = g.stateNodeIds.length + g.callNodes
  idsNodup : g.stateNodeIds.Nodup
  idsSeen : ∀ x ∈ g.stateNodeIds, x ∈ g.seenStates ∨ x ∈ extra
  idsReg : ∀ x ∈ g.stateNodeIds, (alookup x g.stateToIndex).isSome

/-- `ensureATNNode` on a registered id returns the registered index and the
unchanged state. -/
theorem ensure_hit (atn : ATNData) (rn : List String) (isCall : Bool)
    (g : ATNGraphState) (id stNum idx : Nat)
    (h : alookup id g.stateToIndex = some idx) :
    ensureATNNode atn rn isCall g id stNum = (idx, g) := by
  simp only [ensureATNNode, h]

/-- `ensureATNNode` on an unregistered id whose state is not a
single-transition rule call pushes exactly the regular node. -/
theorem ensure_plain (atn : ATNData) (rn : List String) (isCall : Bool)
    (g : ATNGraphState) (id stNum : Nat)
    (h : alookup id g.stateToIndex = none)
    (hno : ∀ t, (stateAt atn stNum).transitions = [t] →
      (stateAt atn t.target).stateType ≠ ruleStartType) :
    ensureATNNode atn rn isCall g id stNum =
      (g.nodes.length,
       { g with
         stateToIndex := (id, g.nodes.length) :: g.stateToIndex,
         nodes := g.nodes ++
           [⟨(id : Int), toString id, (stateAt atn stNum).stateType⟩],
         stateNodeIds :=
           if isCall then g.stateNodeIds else g.stateNodeIds ++ [id],
         callNodes := if isCall then g.callNodes + 1 else g.callNodes }) := by
  rcases htr : (stateAt atn stNum).transitions with _ | ⟨t, _ | ⟨t2, ts⟩⟩
  · simp only [ensureATNNode, h, htr]
  · simp only [ensureATNNode, h, htr, if_neg (hno t htr)]
  · simp only [ensureATNNode, h, htr]

/-- `ensureATNNode` on an unregistered id whose state's single transition
enters a rule start state pushes the regular node and the synthetic rule
node, registering the latter under the composite call-site id. -/
theorem ensure_single_rule (atn : ATNData) (rn : List String) (isCall : Bool)
    (g : ATNGraphState) (id stNum : Nat) (t : ATNTransitionRec)
    (h : alookup id g.stateToIndex = none)
    (htr : (stateAt atn stNum).transitions = [t])
    (hrs : (stateAt atn t.target).stateType = ruleStartType) :
    ensureATNNode atn rn isCall g id stNum =
      (g.nodes.length,
       { g with
         stateToIndex :=
           (stNum * t.target,
             (g.nodes ++
               ([⟨(id : Int), toString id, (stateAt atn stNum).stateType⟩] :
                 List ATNNode)).length) ::
             (id, g.nodes.length) :: g.stateToIndex,
         nodes := (g.nodes ++
             [⟨(id : Int), toString id, (stateAt atn stNum).stateType⟩]) ++
           [⟨g.currentRuleIndex, rn.getD (stateAt atn t.target).ruleIndex "", 13⟩],
         currentRuleIndex := g.currentRuleIndex - 1,
         stateNodeIds :=
           if isCall then g.stateNodeIds else g.stateNodeIds ++ [id],
         callNodes := (if isCall then g.callNodes + 1 else g.callNodes) + 1 }) := by
  simp only [ensureATNNode, h, htr, if_pos hrs]

/-- The full behaviour of `ensureATNNode` needed by the invariants: it never
touches the traversal state (seen set, worklist, expansion record, links);
it keeps the node-count bookkeeping balanced; it extends the state-keyed id
list only by its own id, only for a non-call lookup of an unregistered id;
and it keeps every registered id registered, including the looked-up one. -/
theorem ensure_spec (atn : ATNData) (rn : List String) (isCall : Bool)
    (g : ATNGraphState) (id stNum : Nat) :
    (ensureATNNode atn rn isCall g id stNum).2.seenStates = g.seenStates ∧
    (ensureATNNode atn rn isCall g id stNum).2.pipeline = g.pipeline ∧
    (ensureATNNode atn rn isCall g id stNum).2.expanded = g.expanded ∧
    (ensureATNNode atn rn isCall g id stNum).2.links = g.links ∧
    (ensureATNNode atn rn isCall g id stNum).2.nodes.length +
        g.stateNodeIds.length + g.callNodes =
      g.nodes.length +
        (ensureATNNode atn rn isCall g id stNum).2.stateNodeIds.length +
        (ensureATNNode atn rn isCall g id stNum).2.callNodes ∧
    ((ensureATNNode atn rn isCall g id stNum).2.stateNodeIds =
        g.stateNodeIds ∨
      ((ensureATNNode atn rn isCall g id stNum).2.stateNodeIds =
          g.stateNodeIds ++ [id] ∧ isCall = false ∧
        alookup id g.stateToIndex = none)) ∧
    (∀ x, (alookup x g.stateToIndex).isSome →
      (alookup x (ensureATNNode atn rn isCall g id stNum).2.stateToIndex).isSome) ∧
    (alookup id (ensureATNNode atn rn isCall g id stNum).2.stateToIndex).isSome := by
  cases halo : alookup id g.stateToIndex with
  | some idx =>
      rw [ensure_hit atn rn isCall g id stNum idx halo]
      exact ⟨rfl, rfl, rfl, rfl, by simp, Or.inl rfl, fun x hx => hx,
        by simp [halo]⟩
  | none =>
      by_cases hsing : ∃ t, (stateAt atn stNum).transitions = [t] ∧
          (stateAt atn t.target).stateType = ruleStartType
      · obtain ⟨t, htr, hrs⟩ := hsing
        rw [ensure_single_rule atn rn isCall g id stNum t halo htr hrs]
        refine ⟨rfl, rfl, rfl, rfl, ?_, ?_, ?_, ?_⟩
        · cases isCall with
          | false => simp; omega
          | true => simp; omega
        · cases isCall with
          | false => exact Or.inr ⟨by simp, rfl, rfl⟩
          | true => exact Or.inl (by simp)
        · intro x hx
          exact alookup_cons_isSome _ _ x _ (alookup_cons_isSome id _ x _ hx)
        · by_cases hm : id = stNum * t.target <;> simp [alookup, hm]
      · have hno : ∀ t, (stateAt atn stNum).transitions = [t] →
            (stateAt atn t.target).stateType ≠ ruleStartType :=
          fun t ht hr => hsing ⟨t, ht, hr⟩
        rw [ensure_plain atn rn isCall g id stNum halo hno]
        refine ⟨rfl, rfl, rfl, rfl, ?_, ?_, ?_, ?_⟩
        · cases isCall with
          | false => simp; omega
          | true => simp; omega
        · cases isCall with
          | false => exact Or.inr ⟨by simp, rfl, rfl⟩
          | true => exact Or.inl (by simp)
        · intro x hx
          exact alookup_cons_isSome id _ x _ hx
        · simp [alookup]

/-- The invariant may always be stated relative to more pending states. -/
theorem ginv_weaken (g : ATNGraphState) (extra : List Nat)
    (h : GInvX g []) : GInvX g extra := by
  refine ⟨h.nodupWork, h.seenIff, h.seenNodup, h.countEq, h.idsNodup, ?_,
    h.idsReg⟩
  intro x hx
  rcases h.idsSeen x hx with hs | he
  · exact Or.inl hs
  · exact absurd he (List.not_mem_nil x)

/-- `ensureATNNode` preserves the invariant whenever a non-call lookup uses
a seen or pending state as id. -/
theorem ensure_GInvX (atn : ATNData) (rn : List String) (isCall : Bool)
    (g : ATNGraphState) (id stNum : Nat) (extra : List Nat)
    (h : GInvX g extra)
    (hid : isCall = false → id ∈ g.seenStates ∨ id ∈ extra) :
    GInvX (ensureATNNode atn rn isCall g id stNum).2 extra := by
  obtain ⟨hA, hB, hC, hD, hE, hF, hG, hH⟩ := ensure_spec atn rn isCall g id stNum
  have hc := h.countEq
  refine ⟨?_, ?_, ?_, by omega, ?_, ?_, ?_⟩
  · rw [hC, hB]; exact h.nodupWork
  · intro x; rw [hA, hC, hB]; exact h.seenIff x
  · rw [hA]; exact h.seenNodup
  · rcases hF with hsame | ⟨hadd, hic, hnone⟩
    · rw [hsame]; exact h.idsNodup
    · rw [hadd]
      refine nodup_append_single _ _ h.idsNodup ?_
      intro hmem
      have hsome := h.idsReg id hmem
      rw [hnone] at hsome
      simp at hsome
  · intro x hx
    rw [hA]
    rcases hF with hsame | ⟨hadd, hic, hnone⟩
    · rw [hsame] at hx; exact h.idsSeen x hx
    · rw [hadd] at hx
      rcases List.mem_append.1 hx with h1 | h2
      · exact h.idsSeen x h1
      · rw [List.mem_singleton.1 h2]
        exact hid hic
  · intro x hx
    rcases hF with hsame | ⟨hadd, hic, hnone⟩
    · rw [hsame] at hx; exact hG x (h.idsReg x hx)
    · rw [hadd] at hx
      rcases List.mem_append.1 hx with h1 | h2
      · exact hG x (h.idsReg x h1)
      · rw [List.mem_singleton.1 h2]
        exact hH

/-- Recording a link leaves every invariant field untouched. -/
theorem ginv_addLink (l : ATNLinkRec) (g : ATNGraphState) (extra : List Nat)
    (h : GInvX g extra) : GInvX (addLink l g) extra :=
  ⟨h.nodupWork, h.seenIff, h.seenNodup, h.countEq, h.idsNodup, h.idsSeen,
    h.idsReg⟩

/-- The guarded worklist insertion discharges the pending state: afterwards
the state is seen, the worklist entries are still unique, and the seen set
still matches expanded-plus-pipeline. -/
theorem ginv_pushIfUnseen (n : Nat) (g : ATNGraphState)
    (h : GInvX g [n]) : GInvX (pushIfUnseen n g) [] := by
  by_cases hmem : n ∈ g.seenStates
  · simp only [pushIfUnseen, if_pos hmem]
    refine ⟨h.nodupWork, h.seenIff, h.seenNodup, h.countEq, h.idsNodup, ?_,
      h.idsReg⟩
    intro x hx
    rcases h.idsSeen x hx with hs | he
    · exact Or.inl hs
    · rw [List.mem_singleton.1 he]
      exact Or.inl hmem
  · simp only [pushIfUnseen, if_neg hmem]
    have hout : ¬(n ∈ g.expanded ∨ n ∈ g.pipeline) :=
      fun hor => hmem ((h.seenIff n).2 hor)
    refine ⟨?_, ?_, ?_, h.countEq, h.idsNodup, ?_, h.idsReg⟩
    · show (g.expanded ++ (g.pipeline ++ [n])).Nodup
      rw [← List.append_assoc]
      exact nodup_append_single _ _ h.nodupWork
        (fun hmem' => hout (List.mem_append.1 hmem'))
    · intro x
      show x ∈ g.seenStates ++ [n] ↔ x ∈ g.expanded ∨ x ∈ g.pipeline ++ [n]
      have hbase := h.seenIff x
      simp only [List.mem_append, List.mem_singleton, hbase]
      tauto
    · exact nodup_append_single _ _ h.seenNodup hmem
  -- idsSeen of the pushed state
    · intro x hx
      rcases h.idsSeen x hx with hs | he
      · exact Or.inl (List.mem_append.2 (Or.inl hs))
      · rw [List.mem_singleton.1 he]
        exact Or.inl (List.mem_append.2 (Or.inr (List.mem_singleton.2 rfl)))

/-- `processTransition` preserves the invariant. -/
theorem pT_GInv (atn : ATNData) (rn : List String) (isLex : Bool)
    (vocab : Nat → String) (istr : List Nat → List String)
    (srcIdx stNum : Nat) (g : ATNGraphState) (t : ATNTransitionRec)
    (h : GInvX g []) :
    GInvX (processTransition atn rn isLex vocab istr srcIdx stNum g t) [] := by
  by_cases hrule : (stateAt atn t.target).stateType = ruleStartType
  · have hb : ((stateAt atn t.target).stateType == ruleStartType) = true := by
      simp [hrule]
    simp only [processTransition, hb, if_true]
    refine ginv_pushIfUnseen _ _ (ginv_addLink _ _ _
      (ensure_GInvX atn rn false _ _ _ _ (ginv_addLink _ _ _
        (ensure_GInvX atn rn true g _ _ _ (ginv_weaken g _ h)
          (fun hc => nomatch hc))) ?_))
    intro _
    exact Or.inr (List.mem_singleton.2 rfl)
  · have hb : ((stateAt atn t.target).stateType == ruleStartType) = false := by
      simp [hrule]
    simp only [processTransition, hb, if_false]
    refine ginv_pushIfUnseen _ _ (ginv_addLink _ _ _
      (ensure_GInvX atn rn false g _ _ _ (ginv_weaken g _ h) ?_))
    intro _
    exact Or.inr (by simp)

/-- The transition fold preserves the invariant. -/
theorem foldl_pT_GInv (atn : ATNData) (rn : List String) (isLex : Bool)
    (vocab : Nat → String) (istr : List Nat → List String)
    (srcIdx stNum : Nat) :
    ∀ (ts : List ATNTransitionRec) (g : ATNGraphState), GInvX g [] →
      GInvX (ts.foldl
        (processTransition atn rn isLex vocab istr srcIdx stNum) g) [] := by
  intro ts
  induction ts with
  | nil => intro g h; simpa using h
  | cons t ts ih =>
      intro g h
      simpa using ih _ (pT_GInv atn rn isLex vocab istr srcIdx stNum g t h)

/-- One loop iteration preserves the invariant. -/
theorem step_GInv (atn : ATNData) (rn : List String) (isLex : Bool)
    (vocab : Nat → String) (istr : List Nat → List String) (stop : Nat)
    (g : ATNGraphState) (h : GInvX g []) :
    GInvX (atnStep atn rn isLex vocab istr stop g) [] := by
  cases hp : g.pipeline with
  | nil => simpa [atnStep, hp] using h
  | cons stNum rest =>
      have h0 : GInvX
          { g with pipeline := rest, expanded := g.expanded ++ [stNum] } [] := by
        have hw := h.nodupWork
        rw [hp] at hw
        refine ⟨?_, ?_, h.seenNodup, h.countEq, h.idsNodup, ?_, h.idsReg⟩
        · show ((g.expanded ++ [stNum]) ++ rest).Nodup
          rw [List.append_assoc]
          simpa using hw
        · intro x
          have hbase := h.seenIff x
          rw [hp] at hbase
          show x ∈ g.seenStates ↔ x ∈ g.expanded ++ [stNum] ∨ x ∈ rest
          rw [hbase]
          simp only [List.mem_append, List.mem_singleton, List.mem_cons]
          tauto
        · intro x hx
          rcases h.idsSeen x hx with hs | he
          · exact Or.inl hs
          · exact absurd he (List.not_mem_nil x)
      have hseen : stNum ∈ g.seenStates := by
        apply (h.seenIff stNum).2
        right
        rw [hp]
        exact List.mem_cons_self stNum rest
      have h1 := ensure_GInvX atn rn false _ stNum stNum [] h0
        (fun _ => Or.inl hseen)
      simp only [atnStep, hp]
      by_cases hstop : stNum = stop
      · simpa [hstop] using h1
      · simp only [if_neg hstop]
        exact foldl_pT_GInv atn rn isLex vocab istr _ stNum _ _ h1

/-- The whole loop preserves the invariant. -/
theorem run_GInv (atn : ATNData) (rn : List String) (isLex : Bool)
    (vocab : Nat → String) (istr : List Nat → List String) (stop : Nat) :
    ∀ (fuel : Nat) (g : ATNGraphState), GInvX g [] →
      GInvX (atnRun atn rn isLex vocab istr stop fuel g) [] := by
  intro fuel
  induction fuel with
  | zero => intro g h; simpa [atnRun] using h
  | succ n ih =>
      intro g h
      cases hp : g.pipeline with
      | nil => simpa [atnRun, hp] using h
      | cons a rest =>
          simp only [atnRun, hp]
          exact ih _ (step_GInv atn rn isLex vocab istr stop g h)

/-- The walk's starting state satisfies the invariant. -/
theorem init_GInv (start : Nat) : GInvX (atnInitial start) [] :=
  ⟨by simp [atnInitial], fun x => by simp [atnInitial], by simp [atnInitial],
    rfl, by simp [atnInitial], by simp [atnInitial], by simp [atnInitial]⟩

/-- The guarded insertion never touches the links. -/
theorem pushIfUnseen_links (n : Nat) (g : ATNGraphState) :
    (pushIfUnseen n g).links = g.links := by
  by_cases hm : n ∈ g.seenStates <;> simp [pushIfUnseen, hm]

/-- The guarded insertion never touches the nodes. -/
theorem pushIfUnseen_nodes (n : Nat) (g : ATNGraphState) :
    (pushIfUnseen n g).nodes = g.nodes := by
  by_cases hm : n ∈ g.seenStates <;> simp [pushIfUnseen, hm]

/-- Recording a link never touches the nodes. -/
theorem addLink_nodes (l : ATNLinkRec) (g : ATNGraphState) :
    (addLink l g).nodes = g.nodes := rfl

/-- Element lookup just past an appended prefix. -/
theorem getq_append_length {α : Type} (l : List α) (a : α) (rest : List α) :
    (l ++ a :: rest)[l.length]? = some a := by
  induction l with
  | nil => simp
  | cons x xs ih => simpa using ih

/-- Element lookup inside the left part of an appended list. -/
theorem getq_append_left {α : Type} (l l' : List α) (i : Nat)
    (h : i < l.length) : (l ++ l')[i]? = l[i]? := by
  induction l generalizing i with
  | nil => simp at h
  | cons x xs ih =>
      cases i with
      | zero => simp
      | succ n => simpa using ih n (by simpa using h)

/-- A successful element lookup is in range. -/
theorem lt_of_getq_some {α : Type} (l : List α) (i : Nat) (a : α)
    (h : l[i]? = some a) : i < l.length := by
  induction l generalizing i with
  | nil => simp at h
  | cons x xs ih =>
      cases i with
      | zero => simp
      | succ n =>
          have := ih n (by simpa using h)
          simp only [List.length_cons]
          omega

/-- `ensureATNNode` only ever appends nodes. -/
theorem ensure_nodes_prefix (atn : ATNData) (rn : List String) (isCall : Bool)
    (g : ATNGraphState) (id stNum : Nat) :
    ∃ tail, (ensureATNNode atn rn isCall g id stNum).2.nodes =
      g.nodes ++ tail := by
  cases halo : alookup id g.stateToIndex with
  | some idx =>
      refine ⟨[], ?_⟩
      rw [ensure_hit atn rn isCall g id stNum idx halo]
      simp
  | none =>
      by_cases hsing : ∃ t, (stateAt atn stNum).transitions = [t] ∧
          (stateAt atn t.target).stateType = ruleStartType
      · obtain ⟨t, htr, hrs⟩ := hsing
        refine ⟨[⟨(id : Int), toString id, (stateAt atn stNum).stateType⟩,
          ⟨g.currentRuleIndex, rn.getD (stateAt atn t.target).ruleIndex "",
            13⟩], ?_⟩
        rw [ensure_single_rule atn rn isCall g id stNum t halo htr hrs]
        simp
      · have hno : ∀ t, (stateAt atn stNum).transitions = [t] →
            (stateAt atn t.target).stateType ≠ ruleStartType :=
          fun t ht hr => hsing ⟨t, ht, hr⟩
        refine ⟨[⟨(id : Int), toString id, (stateAt atn stNum).stateType⟩], ?_⟩
        rw [ensure_plain atn rn isCall g id stNum halo hno]

/-- The index `ensureATNNode` returns is either the one registered for the
looked-up id, or the index of the freshly appended node carrying that id as
its node id (and the state's type). -/
theorem ensure_result (atn : ATNData) (rn : List String) (isCall : Bool)
    (g : ATNGraphState) (id stNum : Nat) :
    alookup id g.stateToIndex =
      some (ensureATNNode atn rn isCall g id stNum).1 ∨
    ((ensureATNNode atn rn isCall g id stNum).1 = g.nodes.length ∧
      (ensureATNNode atn rn isCall g id
          stNum).2.nodes[(ensureATNNode atn rn isCall g id stNum).1]? =
        some ⟨(id : Int), toString id, (stateAt atn stNum).stateType⟩) := by
  cases halo : alookup id g.stateToIndex with
  | some idx =>
      left
      rw [ensure_hit atn rn isCall g id stNum idx halo]
  | none =>
      right
      by_cases hsing : ∃ t, (stateAt atn stNum).transitions = [t] ∧
          (stateAt atn t.target).stateType = ruleStartType
      · obtain ⟨t, htr, hrs⟩ := hsing
        rw [ensure_single_rule atn rn isCall g id stNum t halo htr hrs]
        refine ⟨rfl, ?_⟩
        show ((g.nodes ++ _) ++ _)[g.nodes.length]? = _
        rw [List.append_assoc]
        exact getq_append_length g.nodes _ _
      · have hno : ∀ t, (stateAt atn stNum).transitions = [t] →
            (stateAt atn t.target).stateType ≠ ruleStartType :=
          fun t ht hr => hsing ⟨t, ht, hr⟩
        rw [ensure_plain atn rn isCall g id stNum halo hno]
        exact ⟨rfl, getq_append_length g.nodes _ []⟩

/-- The guarded insertion either leaves the worklist alone or appends exactly
the candidate state. -/
theorem pushIfUnseen_pipeline (n : Nat) (g : ATNGraphState) :
    (pushIfUnseen n g).pipeline = g.pipeline ∨
      (pushIfUnseen n g).pipeline = g.pipeline ++ [n] := by
  by_cases hm : n ∈ g.seenStates
  · exact Or.inl (by simp [pushIfUnseen, hm])
  · exact Or.inr (by simp [pushIfUnseen, hm])

/-! ### Concrete automata for evaluation -/

/-- An ordinary epsilon transition. -/
def epsTo (n : Nat) : ATNTransitionRec := ⟨n, 1, true, 0, 0, 0, 0, []⟩

/-- A rule transition (epsilon-class in ANTLR) with its follow state. -/
def ruleTo (target follow : Nat) : ATNTransitionRec :=
  ⟨target, 3, true, follow, 0, 0, 0, []⟩

/-- An automaton in which two different states (2 and 6), each with a second
outgoing transition besides the rule transition, invoke rule 1: the shape
`ensureATNNode` does not pre-register a synthetic node for. -/
def advATN : ATNData :=
  ⟨[⟨2, 0, [epsTo 2]⟩,
    ⟨7, 0, [epsTo 3]⟩,
    ⟨1, 0, [ruleTo 4 3, epsTo 6]⟩,
    ⟨1, 0, [epsTo 1]⟩,
    ⟨2, 1, [epsTo 5]⟩,
    ⟨7, 1, []⟩,
    ⟨1, 0, [ruleTo 4 7, epsTo 7]⟩,
    ⟨1, 0, [epsTo 1]⟩],
   [0, 4], [1, 5]⟩

/-- The extraction of rule 0 of `advATN` (start state 0, stop state 1). -/
def advRun : ATNGraphState :=
  extractRun advATN ["r0", "r1"] false (fun n => toString n) (fun _ => []) 1 10 0

/-- The transition of the single-transition call site in `goodATN`. -/
def goodCall : ATNTransitionRec := ruleTo 4 3

/-- An automaton of the shape ANTLR generates: the rule invocation of rule 1
sits on state 2, whose only transition it is. -/
def goodATN : ATNData :=
  ⟨[⟨2, 0, [epsTo 2]⟩,
    ⟨7, 0, []⟩,
    ⟨1, 0, [goodCall]⟩,
    ⟨1, 0, [epsTo 1]⟩,
    ⟨2, 1, [epsTo 5]⟩,
    ⟨7, 1, []⟩],
   [0, 4], [1, 5]⟩

/-! ### Theorems for C5, C6 and C10 -/

/-- C5 counterexample: the claim bounds the number of produced nodes by the
number of reachable (visited) states plus the number of synthetic rule-call
nodes (the type-13 nodes).  Extracting rule 0 of `advATN` visits 6 states and
produces 8 nodes but no type-13 node: the two call sites have two outgoing
transitions each, so no synthetic node is pre-registered and the two
reentry nodes for rule 1 are created as ordinary nodes under the composite
ids 8 and 24. -/
theorem C5_counterexample :
    advRun.nodes.length = 8 ∧
    advRun.seenStates.length = 6 ∧
    (advRun.nodes.filter (fun n => n.type == 13)).length = 0 ∧
    ¬(advRun.nodes.length ≤ advRun.seenStates.length +
        (advRun.nodes.filter (fun n => n.type == 13)).length) := by
  decide

/-- C5 amended: the walk expands no state more than once (each state enters
the worklist at most once, tracked by the seen set, which stays
duplicate-free and covers the worklist); transitions out of the rule's stop
state are never followed (expanding the stop state leaves links, seen set
and the rest of the worklist untouched); and the number of produced nodes is
at most the number of visited states plus the number of rule-call nodes —
the synthetic type-13 nodes together with the reentry nodes registered under
a composite call-site id. -/
theorem C5_theorem (atn : ATNData) (rn : List String) (isLex : Bool)
    (vocab : Nat → String) (istr : List Nat → List String)
    (stop fuel start : Nat) :
    (extractRun atn rn isLex vocab istr stop fuel start).expanded.Nodup ∧
    (extractRun atn rn isLex vocab istr stop fuel start).seenStates.Nodup ∧
    (∀ x ∈ (extractRun atn rn isLex vocab istr stop fuel start).pipeline,
      x ∈ (extractRun atn rn isLex vocab istr stop fuel start).seenStates) ∧
    (extractRun atn rn isLex vocab istr stop fuel start).nodes.length ≤
      (extractRun atn rn isLex vocab istr stop fuel start).seenStates.length +
        (extractRun atn rn isLex vocab istr stop fuel start).callNodes ∧
    (∀ (g : ATNGraphState) (rest : List Nat), g.pipeline = stop :: rest →
      (atnStep atn rn isLex vocab istr stop g).links = g.links ∧
      (atnStep atn rn isLex vocab istr stop g).seenStates = g.seenStates ∧
      (atnStep atn rn isLex vocab istr stop g).pipeline = rest ∧
      (atnStep atn rn isLex vocab istr stop g).expanded =
        g.expanded ++ [stop]) := by
  have hinv : GInvX (extractRun atn rn isLex vocab istr stop fuel start) [] :=
    run_GInv atn rn isLex vocab istr stop fuel (atnInitial start)
      (init_GInv start)
  refine ⟨hinv.nodupWork.of_append_left, hinv.seenNodup, ?_, ?_, ?_⟩
  · intro x hx
    exact (hinv.seenIff x).2 (Or.inr hx)
  · have hsub : ∀ x ∈
        (extractRun atn rn isLex vocab istr stop fuel start).stateNodeIds,
        x ∈ (extractRun atn rn isLex vocab istr stop fuel start).seenStates := by
      intro x hx
      rcases hinv.idsSeen x hx with hs | he
      · exact hs
      · exact absurd he (List.not_mem_nil x)
    have hlen := (List.subperm_of_subset hinv.idsNodup hsub).length_le
    have hcount := hinv.countEq
    omega
  · intro g rest hpg
    obtain ⟨hA, hB, hC, hD, _, _, _, _⟩ := ensure_spec atn rn false
      { g with pipeline := rest, expanded := g.expanded ++ [stop] } stop stop
    simp only [atnStep, hpg, eq_self_iff_true, if_true]
    exact ⟨by rw [hD], by rw [hA], by rw [hB], by rw [hC]⟩

/-- C5 witness: expanding the stop state of `advATN`'s rule 0 from a
worklist holding only that state produces no link, no new seen state and an
empty worklist. -/
theorem C5_witness :
    (atnStep advATN ["r0", "r1"] false (fun n => toString n) (fun _ => []) 1
        ⟨[1], [1], [], [], [], -1, [], [], 0⟩).links = [] ∧
    (atnStep advATN ["r0", "r1"] false (fun n => toString n) (fun _ => []) 1
        ⟨[1], [1], [], [], [], -1, [], [], 0⟩).pipeline = [] ∧
    (atnStep advATN ["r0", "r1"] false (fun n => toString n) (fun _ => []) 1
        ⟨[1], [1], [], [], [], -1, [], [], 0⟩).seenStates = [1] := by
  have h := (C5_theorem advATN ["r0", "r1"] false (fun n => toString n)
      (fun _ => []) 1 10 0).2.2.2.2
    ⟨[1], [1], [], [], [], -1, [], [], 0⟩ [] rfl
  exact ⟨h.1, h.2.2.1, h.2.1⟩

/-- C6 counterexample: the claim says that whenever a transition targets
another rule's start state a synthetic tag-13 node labeled with the target
rule's name is added and registered under the composite id.  In `advATN` the
expanded state 2 has a transition to rule 1's start state (state 4), yet the
extraction produces no type-13 node and no node labeled "r1": the synthetic
node is only created inside `ensureATNNode` when the calling state's single
transition is the rule invocation, which fails for the two-transition call
sites. -/
theorem C6_counterexample :
    (stateAt advATN 4).stateType = ruleStartType ∧
    ((stateAt advATN 2).transitions.map (fun t => t.target)).head? = some 4 ∧
    2 ∈ advRun.expanded ∧
    advRun.nodes.filter (fun n => n.type == 13) = [] ∧
    advRun.nodes.filter (fun n => n.name == "r1") = [] := by
  decide

/-- C6 amended: when the node of a state whose only transition enters another
rule's start state is created, the extractor additionally creates a synthetic
rule node — tag 13, labeled with the target rule's name — and registers it
under the composite id `calling-state-number × target-rule-start-state-number`
(first part); and for every transition targeting a rule start state, whatever
the shape of the calling state, the link to the target node is followed by an
epsilon-labeled back link (type RULE) whose target is the follow state's
node — the node already registered for the follow state, or else a freshly
created node carrying the follow state's number as id and its state type —
and the only state the transition may enqueue is the follow state, never the
callee's start state (second part; the target node is pinned the same way,
to the node registered for the composite id or a fresh node carrying it). -/
theorem C6_theorem :
    (∀ (atn : ATNData) (rn : List String) (isCall : Bool) (g : ATNGraphState)
        (id stNum : Nat) (t : ATNTransitionRec),
      alookup id g.stateToIndex = none →
      (stateAt atn stNum).transitions = [t] →
      (stateAt atn t.target).stateType = ruleStartType →
      (ensureATNNode atn rn isCall g id stNum).2.nodes =
        (g.nodes ++
          ([⟨(id : Int), toString id, (stateAt atn stNum).stateType⟩] :
            List ATNNode)) ++
          [⟨g.currentRuleIndex, rn.getD (stateAt atn t.target).ruleIndex "",
            13⟩] ∧
      alookup (stNum * t.target)
          (ensureATNNode atn rn isCall g id stNum).2.stateToIndex =
        some (g.nodes.length + 1)) ∧
    (∀ (atn : ATNData) (rn : List String) (isLex : Bool)
        (vocab : Nat → String) (istr : List Nat → List String)
        (srcIdx stNum : Nat) (g : ATNGraphState) (t : ATNTransitionRec),
      (stateAt atn t.target).stateType = ruleStartType →
      ∃ ti ri,
        (processTransition atn rn isLex vocab istr srcIdx stNum g t).links =
          g.links ++
            [⟨srcIdx, ti, t.serializationType,
              transitionLabels isLex vocab istr t⟩,
             ⟨ti, ri, ruleTransType, ["ε"]⟩] ∧
        (alookup (t.target * stNum) g.stateToIndex = some ti ∨
          (processTransition atn rn isLex vocab istr srcIdx stNum g
              t).nodes[ti]? =
            some ⟨((t.target * stNum : Nat) : Int),
              toString (t.target * stNum), (stateAt atn t.target).stateType⟩) ∧
        (alookup t.followState
            (ensureATNNode atn rn true g (t.target * stNum)
              t.target).2.stateToIndex = some ri ∨
          (processTransition atn rn isLex vocab istr srcIdx stNum g
              t).nodes[ri]? =
            some ⟨(t.followState : Int), toString t.followState,
              (stateAt atn t.followState).stateType⟩) ∧
        ((processTransition atn rn isLex vocab istr srcIdx stNum g t).pipeline =
            g.pipeline ∨
          (processTransition atn rn isLex vocab istr srcIdx stNum g t).pipeline =
            g.pipeline ++ [t.followState])) := by
  constructor
  · intro atn rn isCall g id stNum t h htr hrs
    rw [ensure_single_rule atn rn isCall g id stNum t h htr hrs]
    constructor
    · simp
    · simp [alookup]
  · intro atn rn isLex vocab istr srcIdx stNum g t hrs
    have hb : ((stateAt atn t.target).stateType == ruleStartType) = true := by
      simp [hrs]
    simp only [processTransition, hb, if_true]
    refine ⟨(ensureATNNode atn rn true g (t.target * stNum) t.target).1,
      (ensureATNNode atn rn false
        (addLink ⟨srcIdx,
            (ensureATNNode atn rn true g (t.target * stNum) t.target).1,
            t.serializationType, transitionLabels isLex vocab istr t⟩
          (ensureATNNode atn rn true g (t.target * stNum) t.target).2)
        t.followState t.followState).1, ?_, ?_, ?_, ?_⟩
    · obtain ⟨hA1, hB1, hC1, hD1, _, _, _, _⟩ :=
        ensure_spec atn rn true g (t.target * stNum) t.target
      obtain ⟨hA2, hB2, hC2, hD2, _, _, _, _⟩ :=
        ensure_spec atn rn false
          (addLink ⟨srcIdx,
              (ensureATNNode atn rn true g (t.target * stNum) t.target).1,
              t.serializationType, transitionLabels isLex vocab istr t⟩
            (ensureATNNode atn rn true g (t.target * stNum) t.target).2)
          t.followState t.followState
      rw [pushIfUnseen_links]
      show (ensureATNNode atn rn false _ t.followState t.followState).2.links ++
          _ = _
      rw [hD2]
      show ((ensureATNNode atn rn true g (t.target * stNum) t.target).2.links ++
          _) ++ _ = _
      rw [hD1]
      simp
    · rcases ensure_result atn rn true g (t.target * stNum) t.target with
        hl | ⟨hti, hnode⟩
      · exact Or.inl hl
      · right
        rw [pushIfUnseen_nodes, addLink_nodes]
        obtain ⟨tail, htail⟩ := ensure_nodes_prefix atn rn false
          (addLink ⟨srcIdx,
              (ensureATNNode atn rn true g (t.target * stNum) t.target).1,
              t.serializationType, transitionLabels isLex vocab istr t⟩
            (ensureATNNode atn rn true g (t.target * stNum) t.target).2)
          t.followState t.followState
        rw [htail, addLink_nodes, getq_append_left]
        · exact hnode
        · exact lt_of_getq_some _ _ _ hnode
    · rcases ensure_result atn rn false
          (addLink ⟨srcIdx,
              (ensureATNNode atn rn true g (t.target * stNum) t.target).1,
              t.serializationType, transitionLabels isLex vocab istr t⟩
            (ensureATNNode atn rn true g (t.target * stNum) t.target).2)
          t.followState t.followState with hl | ⟨hri, hnode⟩
      · exact Or.inl hl
      · right
        rw [pushIfUnseen_nodes, addLink_nodes]
        exact hnode
    · obtain ⟨hA1, hB1, hC1, hD1, _, _, _, _⟩ :=
        ensure_spec atn rn true g (t.target * stNum) t.target
      obtain ⟨hA2, hB2, hC2, hD2, _, _, _, _⟩ :=
        ensure_spec atn rn false
          (addLink ⟨srcIdx,
              (ensureATNNode atn rn true g (t.target * stNum) t.target).1,
              t.serializationType, transitionLabels isLex vocab istr t⟩
            (ensureATNNode atn rn true g (t.target * stNum) t.target).2)
          t.followState t.followState
      rcases pushIfUnseen_pipeline t.followState
          (addLink ⟨(ensureATNNode atn rn true g (t.target * stNum) t.target).1,
              (ensureATNNode atn rn false
                (addLink ⟨srcIdx,
                    (ensureATNNode atn rn true g (t.target * stNum) t.target).1,
                    t.serializationType,
                    transitionLabels isLex vocab istr t⟩
                  (ensureATNNode atn rn true g (t.target * stNum) t.target).2)
                t.followState t.followState).1, ruleTransType, ["ε"]⟩
            (ensureATNNode atn rn false
              (addLink ⟨srcIdx,
                  (ensureATNNode atn rn true g (t.target * stNum) t.target).1,
                  t.serializationType, transitionLabels isLex vocab istr t⟩
                (ensureATNNode atn rn true g (t.target * stNum) t.target).2)
              t.followState t.followState).2) with hpl | hpl
      · refine Or.inl ?_
        rw [hpl]
        show (ensureATNNode atn rn false _ t.followState
            t.followState).2.pipeline = _
        rw [hB2]
        show (ensureATNNode atn rn true g
            (t.target * stNum) t.target).2.pipeline = _
        rw [hB1]
      · refine Or.inr ?_
        rw [hpl]
        show (ensureATNNode atn rn false _ t.followState
            t.followState).2.pipeline ++ _ = _
        rw [hB2]
        show (ensureATNNode atn rn true g
            (t.target * stNum) t.target).2.pipeline ++ _ = _
        rw [hB1]

/-- C6 witness: creating the node of `goodATN`'s call-site state 2 in the
initial walk state produces the regular node and the synthetic "r1" rule
node, registered under the composite id 2 × 4 = 8; and processing that
state's rule transition from the initial walk state yields the call link,
the ε back link pinned to the follow state's node, and enqueues at most the
follow state. -/
theorem C6_witness :
    ((ensureATNNode goodATN ["r0", "r1"] false (atnInitial 0) 2 2).2.nodes =
      [⟨2, "2", 1⟩, ⟨-1, "r1", 13⟩] ∧
    alookup 8
        (ensureATNNode goodATN ["r0", "r1"] false (atnInitial 0) 2
          2).2.stateToIndex =
      some 1) ∧
    (∃ ti ri,
      (processTransition goodATN ["r0", "r1"] false (fun n => toString n)
          (fun _ => []) 0 2 (atnInitial 0) goodCall).links =
        (atnInitial 0).links ++
          [⟨0, ti, goodCall.serializationType,
            transitionLabels false (fun n => toString n) (fun _ => [])
              goodCall⟩,
           ⟨ti, ri, ruleTransType, ["ε"]⟩] ∧
      (alookup (goodCall.target * 2) (atnInitial 0).stateToIndex = some ti ∨
        (processTransition goodATN ["r0", "r1"] false (fun n => toString n)
            (fun _ => []) 0 2 (atnInitial 0) goodCall).nodes[ti]? =
          some ⟨((goodCall.target * 2 : Nat) : Int),
            toString (goodCall.target * 2),
            (stateAt goodATN goodCall.target).stateType⟩) ∧
      (alookup goodCall.followState
          (ensureATNNode goodATN ["r0", "r1"] true (atnInitial 0)
            (goodCall.target * 2) goodCall.target).2.stateToIndex = some ri ∨
        (processTransition goodATN ["r0", "r1"] false (fun n => toString n)
            (fun _ => []) 0 2 (atnInitial 0) goodCall).nodes[ri]? =
          some ⟨(goodCall.followState : Int), toString goodCall.followState,
            (stateAt goodATN goodCall.followState).stateType⟩) ∧
      ((processTransition goodATN ["r0", "r1"] false (fun n => toString n)
            (fun _ => []) 0 2 (atnInitial 0) goodCall).pipeline =
          (atnInitial 0).pipeline ∨
        (processTransition goodATN ["r0", "r1"] false (fun n => toString n)
            (fun _ => []) 0 2 (atnInitial 0) goodCall).pipeline =
          (atnInitial 0).pipeline ++ [goodCall.followState])) := by
  constructor
  · have h := C6_theorem.1 goodATN ["r0", "r1"] false (atnInitial 0) 2 2
      goodCall rfl rfl rfl
    constructor
    · rw [h.1]; rfl
    · simpa using h.2
  · exact C6_theorem.2 goodATN ["r0", "r1"] false (fun n => toString n)
      (fun _ => []) 0 2 (atnInitial 0) goodCall rfl

/-- C10: `getATNGraph` raises a runtime type error on the empty rule name
(`rule[0]` is `undefined`, on which `toUpperCase` is called), while for every
non-empty rule name it returns normally: `undefined` when the interpreter
data for the rule's kind is missing, `undefined` when the rule is not in the
rule-index map, and a graph in the remaining case. -/
theorem C10_theorem (s : SCState) (vocab : Nat → String)
    (istr : List Nat → List String) (fuel : Nat) :
    getATNGraph s vocab istr fuel "" = Except.error () ∧
    (∀ rule : String, rule ≠ "" →
      ∃ v, getATNGraph s vocab istr fuel rule = Except.ok v) ∧
    (∀ (c : Char) (cs : List Char),
      (((c.toUpper == c) && s.grammarLexerData.isNone) ||
          (!(c.toUpper == c) && s.grammarParserData.isNone)) = true →
      getATNGraph s vocab istr fuel ⟨c :: cs⟩ = Except.ok none) ∧
    (∀ (c : Char) (cs : List Char),
      (((c.toUpper == c) && s.grammarLexerData.isNone) ||
          (!(c.toUpper == c) && s.grammarParserData.isNone)) = false →
      (if c.toUpper = c then s.grammarLexerRuleMap
        else s.grammarParserRuleMap).lookup ⟨c :: cs⟩ = none →
      getATNGraph s vocab istr fuel ⟨c :: cs⟩ = Except.ok none) ∧
    (∀ (c : Char) (cs : List Char) (ruleIndex : Nat),
      (((c.toUpper == c) && s.grammarLexerData.isNone) ||
          (!(c.toUpper == c) && s.grammarParserData.isNone)) = false →
      (if c.toUpper = c then s.grammarLexerRuleMap
        else s.grammarParserRuleMap).lookup ⟨c :: cs⟩ = some ruleIndex →
      ∃ gd, getATNGraph s vocab istr fuel ⟨c :: cs⟩ =
        Except.ok (some gd)) := by
  refine ⟨rfl, ?_, ?_, ?_, ?_⟩
  · intro rule hrule
    rcases rule with ⟨data⟩
    cases data with
    | nil => exact absurd rfl hrule
    | cons c cs =>
        cases hres : getATNGraph s vocab istr fuel ⟨c :: cs⟩ with
        | ok v => exact ⟨v, rfl⟩
        | error e =>
            exfalso
            by_cases hcond : (((c.toUpper == c) && s.grammarLexerData.isNone) ||
                (!(c.toUpper == c) && s.grammarParserData.isNone)) = true
            · simp [getATNGraph, hcond] at hres
            · cases hl : (if c.toUpper = c then s.grammarLexerRuleMap
                  else s.grammarParserRuleMap).lookup ⟨c :: cs⟩ with
              | none => simp [getATNGraph, hcond, hl] at hres
              | some ruleIndex => simp [getATNGraph, hcond, hl] at hres
  · intro c cs hcond
    simp [getATNGraph, hcond]
  · intro c cs hcond hl
    simp [getATNGraph, hcond, hl]
  · intro c cs ruleIndex hcond hl
    cases hres : getATNGraph s vocab istr fuel ⟨c :: cs⟩ with
    | ok v =>
        cases v with
        | some gd => exact ⟨gd, rfl⟩
        | none =>
            exfalso
            simp [getATNGraph, hcond, hl] at hres
    | error e =>
        exfalso
        simp [getATNGraph, hcond, hl] at hres

/-- The sample state with its interpreter data removed again. -/
def noDataState : SCState :=
  { sampleState with grammarLexerData := none, grammarParserData := none }

/-- C10 witness: on the sample state the empty rule name raises; the known
parser rule "r" yields a graph; the unknown rule "z" yields `undefined`; and
with no interpreter data loaded, "r" yields `undefined`. -/
theorem C10_witness :
    getATNGraph sampleState (fun _ => "") (fun _ => []) 5 "" =
      Except.error () ∧
    (∃ gd, getATNGraph sampleState (fun _ => "") (fun _ => []) 5 "r" =
      Except.ok (some gd)) ∧
    getATNGraph sampleState (fun _ => "") (fun _ => []) 5 "z" =
      Except.ok none ∧
    getATNGraph noDataState (fun _ => "") (fun _ => []) 5 "r" =
      Except.ok none := by
  have h := C10_theorem sampleState (fun _ => "") (fun _ => []) 5
  have hnd := C10_theorem noDataState (fun _ => "") (fun _ => []) 5
  refine ⟨h.1, ?_, ?_, ?_⟩
  · exact h.2.2.2.2 'r' [] 0 (by decide) (by decide)
  · exact h.2.2.2.1 'z' [] (by decide) (by decide)
  · exact hnd.2.2.1 'r' [] (by decide)

end SourceContextModel
